import Mathlib

/-!
# Timestamp formatting in `src/time.c`

A shallow embedding of the four formatters of `src/time.c`

* `rcutils_time_point_value_as_nanoseconds_string`
* `rcutils_time_point_value_as_seconds_string`
* `rcutils_time_point_value_as_hmsms_string`
* `rcutils_time_point_value_as_date_string`

together with the C library conversions they call, and theorems about the
text each one leaves in the caller's buffer.

Conventions of the embedding

* memory is a flat map from addresses to characters; a pointer is an
  `Option` (with `none` for `NULL`) of an address, or of the value pointed to
  for the read-only `time_point` argument;
* `int64_t` and `uint64_t` values are `Int` and `Nat` with explicit wrapping
  where the C code converts between them (`llabs`, the cast to `uint64_t`,
  an unsigned argument consumed by a signed conversion, `size_t` subtraction);
* a call returns the pair of its `rcutils_ret_t` and the memory after it; the
  error message that `RCUTILS_SET_ERROR_MSG` records lives outside the buffer
  and is left out.
-/

namespace RcutilsTime

/-! ## Return codes, memory, C strings -/

/-- The values of `rcutils_ret_t` that `time.c` returns. -/
inductive rcutils_ret_t where
  | RCUTILS_RET_OK
  | RCUTILS_RET_ERROR
  | RCUTILS_RET_INVALID_ARGUMENT
  deriving DecidableEq

/-- Byte-addressed memory: the character stored at each address. -/
abbrev Mem := Nat → Char

/-- The terminating character of a C string. -/
def NUL : Char := Char.ofNat 0

/-- Memory after the characters `bs` are stored at `addr`, `addr + 1`, ... -/
def store (mem : Mem) (addr : Nat) (bs : List Char) : Mem :=
  fun a => if addr ≤ a then bs.getD (a - addr) (mem a) else mem a

/-- The `n` characters found at `addr`, `addr + 1`, ... -/
def load (mem : Mem) (addr n : Nat) : List Char :=
  (List.range n).map (fun i => mem (addr + i))

/-- The C string at `addr`: the characters before the first `NUL`, looking at
no more than `n` characters. -/
def c_str (mem : Mem) (addr : Nat) : Nat → List Char
  | 0 => []
  | n + 1 => if mem addr = NUL then [] else mem addr :: c_str mem (addr + 1) n

/-! ## Machine integers -/

/-- Least `int64_t`. -/
def INT64_MIN : Int := -(2 ^ 63)

/-- Greatest `int64_t`. -/
def INT64_MAX : Int := 2 ^ 63 - 1

/-- Two's complement reduction of an integer to the `int64_t` range. -/
def wrap_int64 (x : Int) : Int := (x + 2 ^ 63) % 2 ^ 64 - 2 ^ 63

/-- Conversion of a signed value to `uint64_t`. -/
def wrap_uint64 (x : Int) : Nat := (x % 2 ^ 64).toNat

/-- An `uint64_t` argument read by a signed 64-bit conversion (`PRId64`), and
the cast `(time_t)` of an `uint64_t`. -/
def as_int64 (u : Nat) : Int := wrap_int64 (u : Int)

/-- The C library `llabs` on two's complement hardware: the magnitude, which
wraps back to `INT64_MIN` for `INT64_MIN`. -/
def llabs (x : Int) : Int := wrap_int64 (if x < 0 then -x else x)

/-- The `size_t` difference `a - b`. -/
def size_t_sub (a b : Nat) : Nat := (a + 2 ^ 64 - b % 2 ^ 64) % 2 ^ 64

/-! ## `printf` conversions -/

/-- The character of a decimal digit. -/
def digitChar (d : Nat) : Char := Char.ofNat (48 + d)

/-- Decimal digits of `n`, most significant first, produced with `fuel`
division steps. -/
def decimalFuel : Nat → Nat → List Char
  | 0, _ => []
  | fuel + 1, n =>
    if n < 10 then [digitChar n] else decimalFuel fuel (n / 10) ++ [digitChar (n % 10)]

/-- Decimal digits of `n` without leading zeros (`"0"` for zero). -/
def decimal (n : Nat) : List Char := decimalFuel (n + 1) n

/-- The conversion `%.Pd` (here with the `PRId64` length modifier): a `-` for a
negative value, then its digits, left-padded with zeros to at least `p` digits;
the value zero with precision zero has no digits. -/
def fmt_d_prec (p : Nat) (v : Int) : List Char :=
  let ds := if v = 0 ∧ p = 0 then [] else decimal v.natAbs
  (if v < 0 then ['-'] else []) ++ (List.replicate (p - ds.length) '0' ++ ds)

/-- The conversion `%0Wd`: sign and digits, with zeros between them to fill a
field of `w` characters. -/
def fmt_d_zero_width (w : Nat) (v : Int) : List Char :=
  let sign := if v < 0 then ['-'] else []
  let ds := decimal v.natAbs
  sign ++ (List.replicate (w - (sign.length + ds.length)) '0' ++ ds)

/-- The conversion `%` `PRIu64`: plain decimal digits. -/
def fmt_u (n : Nat) : List Char := decimal n

/-- The conversion `%.Ps`: at most `p` characters of the string. -/
def fmt_s_prec (p : Nat) (s : List Char) : List Char := s.take p

/-! ## Bounded printing -/

/-- What a bounded print hands back: its `int` return value and the memory
after it. -/
structure PrintResult where
  ret : Int
  mem : Mem

/-- A bounded print step: memory, destination address, size, and the text the
format and arguments render to. -/
abbrev BoundedPrint := Mem → Nat → Nat → List Char → PrintResult

/-- The C library `snprintf`: stores at most `n - 1` characters of the text and
a terminating `NUL` (nothing when `n` is zero), and returns the length of the
whole text. -/
def c_snprintf : BoundedPrint := fun mem addr n text =>
  { ret := (text.length : Int)
    mem := if n = 0 then mem else store mem addr (text.take (n - 1) ++ [NUL]) }

/-- Modelled from the spec: `rcutils_snprintf` of `rcutils/snprintf.h`, whose
definition is not in `src/`. The buffer receives a null-terminated string,
truncated safely if the capacity is insufficient; the return value is the one
of the C library `vsnprintf` it wraps. -/
def rcutils_snprintf : BoundedPrint := c_snprintf

/-- The C library `strftime` on a calendar text already expanded from its
format: when the text and its `NUL` fit in `maxsize` characters they are stored
and the length is returned; otherwise the return value is zero and the array
contents are unspecified by C, taken here as the first `maxsize` characters. -/
def c_strftime (mem : Mem) (addr maxsize : Nat) (text : List Char) : PrintResult :=
  if text.length + 1 ≤ maxsize then
    { ret := (text.length : Int), mem := store mem addr (text ++ [NUL]) }
  else
    { ret := 0, mem := store mem addr (text.take maxsize) }

/-! ## The formatters of `time.c` -/

/-- The function `rcutils_time_point_value_as_nanoseconds_string` (time.c:31-47),
with the helper `rcutils_snprintf` as the parameter `snp`: the two null checks,
the early return on a zero size, then the bounded print of `"%.19" PRId64`. -/
def rcutils_time_point_value_as_nanoseconds_string (snp : BoundedPrint)
    (time_point : Option Int) (str : Option Nat) (str_size : Nat) (mem : Mem) :
    rcutils_ret_t × Mem :=
  match time_point with
  | none => (.RCUTILS_RET_INVALID_ARGUMENT, mem)
  | some tp =>
    match str with
    | none => (.RCUTILS_RET_INVALID_ARGUMENT, mem)
    | some s =>
      if str_size = 0 then (.RCUTILS_RET_OK, mem)
      else
        let r := snp mem s str_size (fmt_d_prec 19 tp)
        if r.ret < 0 then (.RCUTILS_RET_ERROR, r.mem) else (.RCUTILS_RET_OK, r.mem)

/-- The text of `"%s%.10" PRId64 ".%.9" PRId64` in
`rcutils_time_point_value_as_seconds_string` (time.c:62-69). -/
def seconds_text (tp : Int) : List Char :=
  let abs_time_point := wrap_uint64 (llabs tp)
  let seconds := abs_time_point / (1000 * 1000 * 1000)
  let nanoseconds := abs_time_point % (1000 * 1000 * 1000)
  (if tp ≥ 0 then [] else ['-']) ++ fmt_d_prec 10 (as_int64 seconds) ++ ['.']
    ++ fmt_d_prec 9 (as_int64 nanoseconds)

/-- The function `rcutils_time_point_value_as_seconds_string` (time.c:49-75), with
the helper `rcutils_snprintf` as the parameter `snp`. -/
def rcutils_time_point_value_as_seconds_string (snp : BoundedPrint)
    (time_point : Option Int) (str : Option Nat) (str_size : Nat) (mem : Mem) :
    rcutils_ret_t × Mem :=
  match time_point with
  | none => (.RCUTILS_RET_INVALID_ARGUMENT, mem)
  | some tp =>
    match str with
    | none => (.RCUTILS_RET_INVALID_ARGUMENT, mem)
    | some s =>
      if str_size = 0 then (.RCUTILS_RET_OK, mem)
      else
        let r := snp mem s str_size (seconds_text tp)
        if r.ret < 0 then (.RCUTILS_RET_ERROR, r.mem) else (.RCUTILS_RET_OK, r.mem)

/-- The text of `"%s%02" PRId64 ":%02" PRId64 ":%02" PRId64 ".%03" PRId64` in
`rcutils_time_point_value_as_hmsms_string` (time.c:90-104). -/
def hmsms_text (tp : Int) : List Char :=
  let abs_time_point := wrap_uint64 (llabs tp)
  let milliseconds := abs_time_point / 1000000
  let seconds := milliseconds / 1000
  let minutes := seconds / 60
  let hours := minutes / 60
  let milliseconds := milliseconds % 1000
  let seconds := seconds % 60
  let minutes := minutes % 60
  let hours := (hours + 8) % 2 ^ 64
  let hours := hours % 24
  (if tp ≥ 0 then [] else ['-', '>']) ++ fmt_d_zero_width 2 (as_int64 hours) ++ [':']
    ++ fmt_d_zero_width 2 (as_int64 minutes) ++ [':']
    ++ fmt_d_zero_width 2 (as_int64 seconds) ++ ['.']
    ++ fmt_d_zero_width 3 (as_int64 milliseconds)

/-- The function `rcutils_time_point_value_as_hmsms_string` (time.c:77-110), with
the helper `rcutils_snprintf` as the parameter `snp`. -/
def rcutils_time_point_value_as_hmsms_string (snp : BoundedPrint)
    (time_point : Option Int) (str : Option Nat) (str_size : Nat) (mem : Mem) :
    rcutils_ret_t × Mem :=
  match time_point with
  | none => (.RCUTILS_RET_INVALID_ARGUMENT, mem)
  | some tp =>
    match str with
    | none => (.RCUTILS_RET_INVALID_ARGUMENT, mem)
    | some s =>
      if str_size = 0 then (.RCUTILS_RET_OK, mem)
      else
        let r := snp mem s str_size (hmsms_text tp)
        if r.ret < 0 then (.RCUTILS_RET_ERROR, r.mem) else (.RCUTILS_RET_OK, r.mem)

/-- The function `rcutils_time_point_value_as_date_string` (time.c:112-140). The parameter
`P` is the platform: the text that `strftime` with `"%Y-%m-%d %H:%M:%S"` renders
for `localtime` of a `time_t`. The local array `str2` holds the C string left
by `snprintf(str2, sizeof(str2), ...)`; every return value of the library calls
is dropped, as in the source. -/
def rcutils_time_point_value_as_date_string (P : Int → List Char)
    (time_point : Option Int) (str : Option Nat) (str_size : Nat) (mem : Mem) :
    rcutils_ret_t × Mem :=
  match time_point with
  | none => (.RCUTILS_RET_INVALID_ARGUMENT, mem)
  | some tp =>
    match str with
    | none => (.RCUTILS_RET_INVALID_ARGUMENT, mem)
    | some s =>
      if str_size = 0 then (.RCUTILS_RET_OK, mem)
      else
        let abs_time_point := wrap_uint64 (llabs tp)
        let seconds := abs_time_point / (1000 * 1000 * 1000)
        let nanoseconds := abs_time_point % (1000 * 1000 * 1000)
        let str2 := (fmt_u nanoseconds).take (21 - 1)
        let now_t := as_int64 seconds
        let m1 := (c_strftime mem s 32 (P now_t)).mem
        let position := 19
        let m2 := (c_snprintf m1 (s + position) (size_t_sub str_size position)
          (['.'] ++ fmt_s_prec 3 str2)).mem
        (.RCUTILS_RET_OK, m2)

/-! ## Reading the text back

Definitions on the side of the specification: the digits of a number in a
field of fixed width, and the readers that the round-trip properties use. -/

/-- The `w` low-order decimal digits of `n`, most significant first. -/
def fixedDigits : Nat → Nat → List Char
  | 0, _ => []
  | w + 1, n => fixedDigits w (n / 10) ++ [digitChar (n % 10)]

/-- Value of a decimal digit character, if it is one. -/
def digitVal (c : Char) : Option Nat := if c.isDigit then some (c.toNat - 48) else none

/-- One step of reading a decimal numeral, left to right. -/
def parseStep (acc : Nat) (c : Char) : Option Nat := (digitVal c).map (fun d => 10 * acc + d)

/-- Reading of a non-empty run of decimal digits as a natural number. -/
def parseNat (cs : List Char) : Option Nat :=
  if cs = [] then none else cs.foldlM parseStep 0

/-- Reading of a text as a signed decimal integer: an optional `-`, then digits. -/
def parseInt (cs : List Char) : Option Int :=
  match cs with
  | [] => none
  | c :: rest =>
    if c = '-' then (parseNat rest).map (fun n => -(n : Int))
    else (parseNat cs).map (fun n => (n : Int))

/-- Reading of a text `[-]S.N` as a sign, integer seconds `S` and integer
nanoseconds `N`, combined into `sign * (S * 1000000000 + N)`. -/
def parseSecondsFraction (cs : List Char) : Option Int :=
  let neg := cs.head? = some '-'
  let body := if neg then cs.drop 1 else cs
  let S := body.takeWhile (fun c => c ≠ '.')
  match body.dropWhile (fun c => c ≠ '.') with
  | [] => none
  | _ :: N =>
    match parseNat S, parseNat N with
    | some s, some n => some ((if neg then -1 else 1) * ((s : Int) * 1000000000 + (n : Int)))
    | _, _ => none

/-! ## A sample platform -/

/-- A platform to evaluate the date formatter on: `localtime` in the UTC zone
followed by `strftime` with `"%Y-%m-%d %H:%M:%S"`, for the `time_t` values from
the epoch to the end of the year 9999 (the civil date comes from the day count
by the usual era, year-of-era, day-of-year decomposition). -/
def utc_calendar_text (now_t : Int) : List Char :=
  let secs := now_t.toNat
  let z := secs / 86400 + 719468
  let era := z / 146097
  let doe := z % 146097
  let yoe := (doe - doe / 1460 + doe / 36524 - doe / 146096) / 365
  let doy := doe - (365 * yoe + yoe / 4 - yoe / 100)
  let mp := (5 * doy + 2) / 153
  let d := doy - (153 * mp + 2) / 5 + 1
  let m := if mp < 10 then mp + 3 else mp - 9
  let y := yoe + era * 400 + (if m ≤ 2 then 1 else 0)
  let tod := secs % 86400
  fixedDigits 4 y ++ ['-'] ++ fixedDigits 2 m ++ ['-'] ++ fixedDigits 2 d ++ [' ']
    ++ fixedDigits 2 (tod / 3600) ++ [':'] ++ fixedDigits 2 (tod / 60 % 60) ++ [':']
    ++ fixedDigits 2 (tod % 60)

/-! ## The date formatter with its library calls as parameters -/

/-- The function `rcutils_time_point_value_as_date_string` (time.c:112-140) once
more, with the two library calls that store into the caller's buffer,
`strftime` and the second `snprintf`, as the parameters `strftime_step` and
`snprintf_step`: the source uses the memory each one leaves and drops the
value each one returns. -/
def rcutils_time_point_value_as_date_string_steps
    (strftime_step : Mem → Nat → Nat → List Char → PrintResult)
    (snprintf_step : BoundedPrint) (P : Int → List Char)
    (time_point : Option Int) (str : Option Nat) (str_size : Nat) (mem : Mem) :
    rcutils_ret_t × Mem :=
  match time_point with
  | none => (.RCUTILS_RET_INVALID_ARGUMENT, mem)
  | some tp =>
    match str with
    | none => (.RCUTILS_RET_INVALID_ARGUMENT, mem)
    | some s =>
      if str_size = 0 then (.RCUTILS_RET_OK, mem)
      else
        let abs_time_point := wrap_uint64 (llabs tp)
        let seconds := abs_time_point / (1000 * 1000 * 1000)
        let nanoseconds := abs_time_point % (1000 * 1000 * 1000)
        let str2 := (fmt_u nanoseconds).take (21 - 1)
        let now_t := as_int64 seconds
        let m1 := (strftime_step mem s 32 (P now_t)).mem
        let position := 19
        let m2 := (snprintf_step m1 (s + position) (size_t_sub str_size position)
          (['.'] ++ fmt_s_prec 3 str2)).mem
        (.RCUTILS_RET_OK, m2)

/-! # Lemmas -/

/-! ## Memory and C strings -/

theorem store_apply_of_lt (mem : Mem) (addr : Nat) (bs : List Char) (i : Nat)
    (h : i < bs.length) : store mem addr bs (addr + i) = bs[i] := by
  unfold store
  rw [if_pos (Nat.le_add_right _ _), Nat.add_sub_cancel_left, List.getD_eq_getElem _ _ h]

theorem store_apply_of_outside (mem : Mem) (addr : Nat) (bs : List Char) (a : Nat)
    (h : a < addr ∨ addr + bs.length ≤ a) : store mem addr bs a = mem a := by
  unfold store
  split
  · apply List.getD_eq_default
    omega
  · rfl

theorem c_str_of_bytes (m : Mem) (F : List Char) : ∀ (addr n : Nat),
    (∀ c ∈ F, c ≠ NUL) → F.length < n →
    (∀ i (h : i < (F ++ [NUL]).length), m (addr + i) = (F ++ [NUL])[i]) →
    c_str m addr n = F := by
  induction F with
  | nil =>
    intro addr n _ hn H
    cases n with
    | zero => simp at hn
    | succ k =>
      have h0 := H 0 (by simp)
      simp at h0
      simp [c_str, h0]
  | cons c F ih =>
    intro addr n hF hn H
    cases n with
    | zero => simp at hn
    | succ k =>
      have h0 := H 0 (by simp)
      simp at h0
      have hc : c ≠ NUL := hF c (by simp)
      have ht := ih (addr + 1) k (fun x hx => hF x (by simp [hx])) (by simpa using hn) (by
        intro i hi
        have := H (i + 1) (by simpa using hi)
        simpa [Nat.add_assoc, Nat.add_comm 1 i] using this)
      simp [c_str, h0, hc, ht]

theorem c_str_store (mem : Mem) (addr n : Nat) (F : List Char)
    (hF : ∀ c ∈ F, c ≠ NUL) (hn : F.length < n) :
    c_str (store mem addr (F ++ [NUL])) addr n = F :=
  c_str_of_bytes _ F addr n hF hn (fun i h => store_apply_of_lt mem addr _ i h)

theorem fixedDigits_length (w n : Nat) : (fixedDigits w n).length = w := by
  induction w generalizing n with
  | zero => rfl
  | succ w ih => simp [fixedDigits, ih]

theorem fixedDigits_zero (w : Nat) : fixedDigits w 0 = List.replicate w '0' := by
  induction w with
  | zero => rfl
  | succ w ih =>
    have h0 : digitChar 0 = '0' := by decide
    simp [fixedDigits, ih, h0, List.replicate_succ']

theorem decimalFuel_length_le (f n : Nat) : (decimalFuel f n).length ≤ f := by
  induction f generalizing n with
  | zero => simp [decimalFuel]
  | succ f ih =>
    unfold decimalFuel
    split
    · simp
    · have := ih (n / 10)
      simp
      omega

theorem pad_decimalFuel (k : Nat) : ∀ (n f : Nat), 1 ≤ k → n < 10 ^ k → n < 10 ^ f → 1 ≤ f →
    List.replicate (k - (decimalFuel f n).length) '0' ++ decimalFuel f n = fixedDigits k n := by
  induction k with
  | zero =>
    intro n f hk1 _ _ _
    omega
  | succ k ih =>
    intro n f _ hk hf hf1
    obtain ⟨f, rfl⟩ : ∃ g, f = g + 1 := ⟨f - 1, by omega⟩
    unfold decimalFuel
    by_cases h10 : n < 10
    · have hd : n / 10 = 0 := by omega
      have hm : n % 10 = n := by omega
      simp [h10, fixedDigits, hd, hm, fixedDigits_zero]
    · have hk' : n / 10 < 10 ^ k := by
        have : 10 ^ (k + 1) = 10 * 10 ^ k := by ring
        omega
      have hf' : n / 10 < 10 ^ f := by
        have : 10 ^ (f + 1) = 10 * 10 ^ f := by ring
        omega
      have hf1' : 1 ≤ f := by
        rcases f with _ | f
        · simp at hf; omega
        · omega
      have hk1' : 1 ≤ k := by
        rcases k with _ | k
        · simp at hk; omega
        · omega
      have := ih (n / 10) f hk1' hk' hf' hf1'
      simp [h10, fixedDigits, ← this]

theorem lt_ten_pow_succ (n : Nat) : n < 10 ^ (n + 1) := by
  have h1 : n < 10 ^ n := Nat.lt_pow_self (by norm_num) n
  have h2 : 10 ^ n ≤ 10 ^ (n + 1) := Nat.pow_le_pow_right (by norm_num) (by omega)
  omega

theorem pad_decimal (k n : Nat) (hk : 1 ≤ k) (h : n < 10 ^ k) :
    List.replicate (k - (decimal n).length) '0' ++ decimal n = fixedDigits k n :=
  pad_decimalFuel k n (n + 1) hk h (lt_ten_pow_succ n) (by omega)

/-! ## Digits read back -/

theorem digitChar_isDigit (d : Nat) (h : d < 10) : (digitChar d).isDigit = true := by
  interval_cases d <;> rfl

theorem digitVal_digitChar (d : Nat) (h : d < 10) : digitVal (digitChar d) = some d := by
  interval_cases d <;> rfl

theorem fixedDigits_isDigit (w n : Nat) : ∀ c ∈ fixedDigits w n, c.isDigit = true := by
  induction w generalizing n with
  | zero => simp [fixedDigits]
  | succ w ih =>
    intro c hc
    simp only [fixedDigits, List.mem_append, List.mem_singleton] at hc
    rcases hc with hc | rfl
    · exact ih _ c hc
    · exact digitChar_isDigit _ (Nat.mod_lt _ (by norm_num))

theorem isDigit_ne_NUL (c : Char) (h : c.isDigit = true) : c ≠ NUL := by
  rintro rfl
  exact absurd h (by decide)

theorem foldlM_fixedDigits (w : Nat) : ∀ (n acc : Nat),
    (fixedDigits w n).foldlM parseStep acc = some (acc * 10 ^ w + n % 10 ^ w) := by
  induction w with
  | zero => intro n acc; simp [fixedDigits, Nat.mod_one]
  | succ w ih =>
    intro n acc
    simp only [fixedDigits, List.foldlM_append, ih]
    simp only [List.foldlM, parseStep, digitVal_digitChar _ (Nat.mod_lt n (by norm_num : 0 < 10))]
    simp only [Option.some_bind, Option.map_some', Option.bind_eq_bind, Option.pure_def, Option.bind_some]
    congr 1
    rw [pow_succ', Nat.mod_mul]
    ring

theorem parseNat_fixedDigits (w n : Nat) (hw : 1 ≤ w) :
    parseNat (fixedDigits w n) = some (n % 10 ^ w) := by
  unfold parseNat
  have hne : fixedDigits w n ≠ [] := by
    intro h
    have := fixedDigits_length w n
    rw [h] at this
    simp at this
    omega
  rw [if_neg hne, foldlM_fixedDigits]
  simp

/-! ## The conversions on values that fit their field -/

theorem fmt_d_prec_eq (p : Nat) (v : Int) (hp : 1 ≤ p) (h : v.natAbs < 10 ^ p) :
    fmt_d_prec p v = (if v < 0 then ['-'] else []) ++ fixedDigits p v.natAbs := by
  unfold fmt_d_prec
  have hp0 : ¬ (v = 0 ∧ p = 0) := by omega
  simp only [if_neg hp0, pad_decimal p v.natAbs hp h]

theorem fixedDigits_ne_NUL (w n : Nat) : ∀ c ∈ fixedDigits w n, c ≠ NUL :=
  fun c hc => isDigit_ne_NUL c (fixedDigits_isDigit w n c hc)

theorem parseInt_neg_fixedDigits (w n : Nat) (hw : 1 ≤ w) :
    parseInt ('-' :: fixedDigits w n) = some (-((n % 10 ^ w : Nat) : Int)) := by
  simp [parseInt, parseNat_fixedDigits w n hw]

theorem parseInt_fixedDigits (w n : Nat) (hw : 1 ≤ w) :
    parseInt (fixedDigits w n) = some ((n % 10 ^ w : Nat) : Int) := by
  have hp := parseNat_fixedDigits w n hw
  have hd := fixedDigits_isDigit w n
  cases hl : fixedDigits w n with
  | nil => rw [hl] at hp; simp [parseNat] at hp
  | cons c rest =>
    rw [hl] at hp hd
    have hc : c ≠ '-' := by
      rintro rfl
      exact absurd (hd '-' (by simp)) (by decide)
    simp [parseInt, hc, hp]

/-! ## What a call does when the arguments are present -/

theorem nanoseconds_string_run (tp : Int) (s n : Nat) (mem : Mem) (hn : n ≠ 0) :
    rcutils_time_point_value_as_nanoseconds_string rcutils_snprintf (some tp) (some s) n mem
      = (.RCUTILS_RET_OK, store mem s ((fmt_d_prec 19 tp).take (n - 1) ++ [NUL])) := by
  simp [rcutils_time_point_value_as_nanoseconds_string, rcutils_snprintf, c_snprintf, hn]

theorem natAbs_lt_of_int64 (t : Int) (hlo : INT64_MIN ≤ t) (hhi : t ≤ INT64_MAX) :
    t.natAbs < 10 ^ 19 := by
  unfold INT64_MIN at hlo
  unfold INT64_MAX at hhi
  omega

/-- C1. For every signed 64-bit timestamp, `INT64_MIN` and `INT64_MAX` included,
and every capacity of at least 21,
`rcutils_time_point_value_as_nanoseconds_string` returns `RCUTILS_RET_OK` and
the C string it leaves in the buffer, read back as a signed decimal integer,
is the timestamp. -/
theorem nanoseconds_string_round_trip (t : Int) (str str_size : Nat) (mem : Mem)
    (hlo : INT64_MIN ≤ t) (hhi : t ≤ INT64_MAX) (hcap : 21 ≤ str_size) :
    (rcutils_time_point_value_as_nanoseconds_string rcutils_snprintf
        (some t) (some str) str_size mem).1 = rcutils_ret_t.RCUTILS_RET_OK ∧
    parseInt (c_str (rcutils_time_point_value_as_nanoseconds_string rcutils_snprintf
        (some t) (some str) str_size mem).2 str str_size) = some t := by
  have habs := natAbs_lt_of_int64 t hlo hhi
  rw [nanoseconds_string_run t str str_size mem (by omega)]
  refine ⟨rfl, ?_⟩
  have hF := fmt_d_prec_eq 19 t (by norm_num) habs
  have hlen : (fmt_d_prec 19 t).length ≤ 20 := by
    rw [hF]
    split <;> simp [fixedDigits_length]
  have hnul : ∀ c ∈ fmt_d_prec 19 t, c ≠ NUL := by
    rw [hF]
    intro c hc
    rcases List.mem_append.1 hc with h | h
    · split at h
      · simp at h; subst h; decide
      · simp at h
    · exact fixedDigits_ne_NUL _ _ c h
  simp only []
  rw [List.take_of_length_le (by omega), c_str_store mem str str_size _ hnul (by omega), hF]
  by_cases hneg : t < 0
  · rw [if_pos hneg]
    simp only [List.singleton_append]
    rw [parseInt_neg_fixedDigits 19 _ (by norm_num), Nat.mod_eq_of_lt habs]
    congr 1
    omega
  · rw [if_neg hneg]
    simp only [List.nil_append]
    rw [parseInt_fixedDigits 19 _ (by norm_num), Nat.mod_eq_of_lt habs]
    congr 1
    omega

/-- Witness of C1 at the least timestamp, in a buffer of exactly 21 characters. -/
theorem nanoseconds_string_round_trip_witness :
    (INT64_MIN ≤ INT64_MIN ∧ INT64_MIN ≤ INT64_MAX ∧ 21 ≤ 21) ∧
    (rcutils_time_point_value_as_nanoseconds_string rcutils_snprintf
        (some INT64_MIN) (some 0) 21 (fun _ => 'x')).1 = rcutils_ret_t.RCUTILS_RET_OK ∧
    parseInt (c_str (rcutils_time_point_value_as_nanoseconds_string rcutils_snprintf
        (some INT64_MIN) (some 0) 21 (fun _ => 'x')).2 0 21) = some INT64_MIN :=
  ⟨⟨by decide, by decide, by decide⟩,
    nanoseconds_string_round_trip INT64_MIN 0 21 (fun _ => 'x') (by decide) (by decide)
      (by decide)⟩

/-! ## The seconds formatter -/

theorem abs_time_point_eq (t : Int) (hlo : INT64_MIN ≤ t) (hhi : t ≤ INT64_MAX) :
    wrap_uint64 (llabs t) = t.natAbs := by
  unfold INT64_MIN at hlo
  unfold INT64_MAX at hhi
  unfold wrap_uint64 llabs wrap_int64
  split <;> omega

theorem as_int64_eq (u : Nat) (h : u < 2 ^ 63) : as_int64 u = (u : Int) := by
  unfold as_int64 wrap_int64
  omega

theorem seconds_string_run (tp : Int) (s n : Nat) (mem : Mem) (hn : n ≠ 0) :
    rcutils_time_point_value_as_seconds_string rcutils_snprintf (some tp) (some s) n mem
      = (.RCUTILS_RET_OK, store mem s ((seconds_text tp).take (n - 1) ++ [NUL])) := by
  simp [rcutils_time_point_value_as_seconds_string, rcutils_snprintf, c_snprintf, hn]

theorem seconds_text_eq (t : Int) (hlo : INT64_MIN ≤ t) (hhi : t ≤ INT64_MAX) :
    seconds_text t = (if t < 0 then ['-'] else []) ++ fixedDigits 10 (t.natAbs / 1000000000)
      ++ ['.'] ++ fixedDigits 9 (t.natAbs % 1000000000) := by
  have ha := natAbs_lt_of_int64 t hlo hhi
  have hs : t.natAbs / 1000000000 < 2 ^ 63 := by omega
  have hn : t.natAbs % 1000000000 < 2 ^ 63 := by omega
  unfold seconds_text
  simp only [abs_time_point_eq t hlo hhi, Nat.reduceMul, as_int64_eq _ hs, as_int64_eq _ hn]
  rw [fmt_d_prec_eq 10 _ (by norm_num) (by simp only [Int.natAbs_ofNat]; omega),
    fmt_d_prec_eq 9 _ (by norm_num) (by simp only [Int.natAbs_ofNat]; omega)]
  have h1 : ¬ ((t.natAbs / 1000000000 : Nat) : Int) < 0 := by omega
  have h2 : ¬ ((t.natAbs % 1000000000 : Nat) : Int) < 0 := by omega
  simp only [if_neg h1, if_neg h2, Int.natAbs_ofNat, List.nil_append]
  by_cases h : t < 0
  · have : ¬ t ≥ 0 := by omega
    simp [h, this]
  · have : t ≥ 0 := by omega
    simp [h, this]

theorem seconds_text_length (t : Int) (hlo : INT64_MIN ≤ t) (hhi : t ≤ INT64_MAX) :
    (seconds_text t).length = if t < 0 then 21 else 20 := by
  rw [seconds_text_eq t hlo hhi]
  split <;> simp [fixedDigits_length]

theorem seconds_text_ne_NUL (t : Int) (hlo : INT64_MIN ≤ t) (hhi : t ≤ INT64_MAX) :
    ∀ c ∈ seconds_text t, c ≠ NUL := by
  rw [seconds_text_eq t hlo hhi]
  intro c hc
  simp only [List.mem_append, List.mem_singleton] at hc
  rcases hc with ((h | h) | h) | h
  · split at h
    · simp at h; subst h; decide
    · simp at h
  · exact fixedDigits_ne_NUL _ _ c h
  · subst h; decide
  · exact fixedDigits_ne_NUL _ _ c h

theorem seconds_string_c_str (t : Int) (str str_size : Nat) (mem : Mem)
    (hlo : INT64_MIN ≤ t) (hhi : t ≤ INT64_MAX) (hcap : 22 ≤ str_size) :
    c_str (rcutils_time_point_value_as_seconds_string rcutils_snprintf
        (some t) (some str) str_size mem).2 str str_size = seconds_text t := by
  have hlen := seconds_text_length t hlo hhi
  have hlen' : (seconds_text t).length ≤ 21 := by rw [hlen]; split <;> omega
  rw [seconds_string_run t str str_size mem (by omega)]
  simp only []
  rw [List.take_of_length_le (by omega),
    c_str_store mem str str_size _ (seconds_text_ne_NUL t hlo hhi) (by omega)]

theorem fixedDigits_ne_dot (w n : Nat) : ∀ c ∈ fixedDigits w n, (decide (c ≠ '.')) = true := by
  intro c hc
  have := fixedDigits_isDigit w n c hc
  simp only [decide_eq_true_eq]
  rintro rfl
  exact absurd this (by decide)

theorem parseSecondsFraction_body (S N : List Char) (hS : ∀ c ∈ S, (decide (c ≠ '.')) = true) :
    (S ++ ['.'] ++ N).takeWhile (fun c => c ≠ '.') = S ∧
    (S ++ ['.'] ++ N).dropWhile (fun c => c ≠ '.') = '.' :: N := by
  constructor
  · rw [List.append_assoc, List.takeWhile_append_of_pos hS]
    simp
  · rw [List.append_assoc, List.dropWhile_append_of_pos hS]
    simp

theorem isDigit_ne_dot (S : List Char) (hS : ∀ c ∈ S, c.isDigit = true) :
    ∀ c ∈ S, (decide (c ≠ '.')) = true := by
  intro c hc
  have := hS c hc
  simp only [decide_eq_true_eq]
  rintro rfl
  exact absurd this (by decide)

theorem parseSecondsFraction_neg (S N : List Char) (s n : Nat)
    (hS : ∀ c ∈ S, c.isDigit = true) (hs : parseNat S = some s) (hn : parseNat N = some n) :
    parseSecondsFraction ('-' :: (S ++ ['.'] ++ N))
      = some (-((s : Int) * 1000000000 + (n : Int))) := by
  have hb := parseSecondsFraction_body S N (isDigit_ne_dot S hS)
  unfold parseSecondsFraction
  simp only [List.head?_cons, if_true, List.drop_one, List.tail_cons]
  rw [hb.1, hb.2]
  simp only [hs, hn, if_true]
  congr 1
  omega

theorem parseSecondsFraction_pos (S N : List Char) (s n : Nat)
    (hS : ∀ c ∈ S, c.isDigit = true) (hs : parseNat S = some s) (hn : parseNat N = some n) :
    parseSecondsFraction (S ++ ['.'] ++ N) = some ((s : Int) * 1000000000 + (n : Int)) := by
  have hb := parseSecondsFraction_body S N (isDigit_ne_dot S hS)
  have hh : ¬ ((S ++ ['.'] ++ N).head? = some '-') := by
    cases S with
    | nil => simp
    | cons c rest =>
      have hc : c ≠ '-' := by
        rintro rfl
        exact absurd (hS '-' (by simp)) (by decide)
      simp [hc]
  unfold parseSecondsFraction
  simp only [if_neg hh]
  rw [hb.1, hb.2]
  simp only [hs, hn, if_neg hh]
  congr 1
  omega

/-- C2. For every signed 64-bit timestamp, `INT64_MIN` included, and every
capacity of at least 22, the C string that
`rcutils_time_point_value_as_seconds_string` leaves in the buffer, read as a
sign, integer seconds `S` and integer nanoseconds `N`, gives back the timestamp
as `sign * (S * 1000000000 + N)`; the call returns `RCUTILS_RET_OK`. -/
theorem seconds_string_round_trip (t : Int) (str str_size : Nat) (mem : Mem)
    (hlo : INT64_MIN ≤ t) (hhi : t ≤ INT64_MAX) (hcap : 22 ≤ str_size) :
    (rcutils_time_point_value_as_seconds_string rcutils_snprintf
        (some t) (some str) str_size mem).1 = rcutils_ret_t.RCUTILS_RET_OK ∧
    parseSecondsFraction (c_str (rcutils_time_point_value_as_seconds_string rcutils_snprintf
        (some t) (some str) str_size mem).2 str str_size) = some t := by
  refine ⟨by rw [seconds_string_run t str str_size mem (by omega)], ?_⟩
  rw [seconds_string_c_str t str str_size mem hlo hhi hcap, seconds_text_eq t hlo hhi]
  have ha := natAbs_lt_of_int64 t hlo hhi
  have hS := parseNat_fixedDigits 10 (t.natAbs / 1000000000) (by norm_num)
  have hN := parseNat_fixedDigits 9 (t.natAbs % 1000000000) (by norm_num)
  rw [Nat.mod_eq_of_lt (show t.natAbs / 1000000000 < 10 ^ 10 by omega)] at hS
  rw [Nat.mod_eq_of_lt (show t.natAbs % 1000000000 < 10 ^ 9 by omega)] at hN
  by_cases hneg : t < 0
  · rw [if_pos hneg]
    have htxt : ['-'] ++ fixedDigits 10 (t.natAbs / 1000000000) ++ ['.']
          ++ fixedDigits 9 (t.natAbs % 1000000000)
        = '-' :: (fixedDigits 10 (t.natAbs / 1000000000) ++ ['.']
          ++ fixedDigits 9 (t.natAbs % 1000000000)) := by simp
    rw [htxt, parseSecondsFraction_neg _ _ _ _ (fixedDigits_isDigit 10 _) hS hN]
    congr 1
    omega
  · simp only [if_neg hneg, List.nil_append]
    rw [parseSecondsFraction_pos _ _ _ _ (fixedDigits_isDigit 10 _) hS hN]
    congr 1
    omega

/-- Witness of C2 at the least timestamp, in a buffer of exactly 22 characters. -/
theorem seconds_string_round_trip_witness :
    (INT64_MIN ≤ INT64_MIN ∧ INT64_MIN ≤ INT64_MAX ∧ 22 ≤ 22) ∧
    (rcutils_time_point_value_as_seconds_string rcutils_snprintf
        (some INT64_MIN) (some 0) 22 (fun _ => 'x')).1 = rcutils_ret_t.RCUTILS_RET_OK ∧
    parseSecondsFraction (c_str (rcutils_time_point_value_as_seconds_string rcutils_snprintf
        (some INT64_MIN) (some 0) 22 (fun _ => 'x')).2 0 22) = some INT64_MIN :=
  ⟨⟨by decide, by decide, by decide⟩,
    seconds_string_round_trip INT64_MIN 0 22 (fun _ => 'x') (by decide) (by decide)
      (by decide)⟩

theorem decimal_length_le (k n : Nat) (hk : 1 ≤ k) (h : n < 10 ^ k) :
    (decimal n).length ≤ k := by
  have := congrArg List.length (pad_decimal k n hk h)
  simp only [List.length_append, List.length_replicate, fixedDigits_length] at this
  omega

/-- C3. For every signed 64-bit timestamp and every capacity of at least 22,
the C string that `rcutils_time_point_value_as_seconds_string` leaves in the
buffer is an optional `-` (present exactly for a negative timestamp), ten
decimal digits, a `.`, and nine decimal digits, so it has 20 characters for a
timestamp that is not negative and 21 for a negative one; the seconds count
has at most ten digits, and both unsigned values stay non-negative when the
signed conversion reads them. -/
theorem seconds_string_shape (t : Int) (str str_size : Nat) (mem : Mem)
    (hlo : INT64_MIN ≤ t) (hhi : t ≤ INT64_MAX) (hcap : 22 ≤ str_size) :
    (∃ S N : List Char,
      S.length = 10 ∧ (∀ c ∈ S, c.isDigit = true) ∧
      N.length = 9 ∧ (∀ c ∈ N, c.isDigit = true) ∧
      c_str (rcutils_time_point_value_as_seconds_string rcutils_snprintf
          (some t) (some str) str_size mem).2 str str_size
        = (if t < 0 then ['-'] else []) ++ S ++ ['.'] ++ N) ∧
    (c_str (rcutils_time_point_value_as_seconds_string rcutils_snprintf
        (some t) (some str) str_size mem).2 str str_size).length
      = (if t < 0 then 21 else 20) ∧
    (decimal (wrap_uint64 (llabs t) / (1000 * 1000 * 1000))).length ≤ 10 ∧
    0 ≤ as_int64 (wrap_uint64 (llabs t) / (1000 * 1000 * 1000)) ∧
    0 ≤ as_int64 (wrap_uint64 (llabs t) % (1000 * 1000 * 1000)) := by
  have ha := natAbs_lt_of_int64 t hlo hhi
  have hs : t.natAbs / 1000000000 < 2 ^ 63 := by omega
  have hn : t.natAbs % 1000000000 < 2 ^ 63 := by omega
  rw [seconds_string_c_str t str str_size mem hlo hhi hcap, abs_time_point_eq t hlo hhi]
  refine ⟨⟨fixedDigits 10 (t.natAbs / 1000000000), fixedDigits 9 (t.natAbs % 1000000000),
    fixedDigits_length _ _, fixedDigits_isDigit _ _, fixedDigits_length _ _,
    fixedDigits_isDigit _ _, seconds_text_eq t hlo hhi⟩,
    seconds_text_length t hlo hhi, ?_, ?_, ?_⟩
  · exact decimal_length_le 10 _ (by norm_num) (by omega)
  · simp only [Nat.reduceMul]; rw [as_int64_eq _ hs]; omega
  · simp only [Nat.reduceMul]; rw [as_int64_eq _ hn]; omega

/-- Witness of C3 at the least timestamp, in a buffer of exactly 22 characters. -/
theorem seconds_string_shape_witness :
    (INT64_MIN ≤ INT64_MIN ∧ INT64_MIN ≤ INT64_MAX ∧ 22 ≤ 22) ∧
    (c_str (rcutils_time_point_value_as_seconds_string rcutils_snprintf
        (some INT64_MIN) (some 0) 22 (fun _ => 'x')).2 0 22).length
      = (if INT64_MIN < 0 then 21 else 20) :=
  ⟨⟨by decide, by decide, by decide⟩,
    (seconds_string_shape INT64_MIN 0 22 (fun _ => 'x') (by decide) (by decide)
      (by decide)).2.1⟩

/-! ## The clock formatter -/

theorem fmt_d_zero_width_eq (w n : Nat) (hw : 1 ≤ w) (h : n < 10 ^ w) :
    fmt_d_zero_width w (n : Int) = fixedDigits w n := by
  unfold fmt_d_zero_width
  have h0 : ¬ ((n : Int) < 0) := by omega
  simp only [if_neg h0, List.length_nil, Nat.zero_add, List.nil_append, Int.natAbs_ofNat]
  exact pad_decimal w n hw h

theorem hmsms_string_run (tp : Int) (s n : Nat) (mem : Mem) (hn : n ≠ 0) :
    rcutils_time_point_value_as_hmsms_string rcutils_snprintf (some tp) (some s) n mem
      = (.RCUTILS_RET_OK, store mem s ((hmsms_text tp).take (n - 1) ++ [NUL])) := by
  simp [rcutils_time_point_value_as_hmsms_string, rcutils_snprintf, c_snprintf, hn]

theorem hmsms_text_eq (t : Int) (hlo : INT64_MIN ≤ t) (hhi : t ≤ INT64_MAX) :
    hmsms_text t = (if t < 0 then ['-', '>'] else [])
      ++ fixedDigits 2 ((t.natAbs / 3600000000000 + 8) % 24) ++ [':']
      ++ fixedDigits 2 (t.natAbs / 60000000000 % 60) ++ [':']
      ++ fixedDigits 2 (t.natAbs / 1000000000 % 60) ++ ['.']
      ++ fixedDigits 3 (t.natAbs / 1000000 % 1000) := by
  have ha := natAbs_lt_of_int64 t hlo hhi
  have e1 : t.natAbs / 1000000 / 1000 = t.natAbs / 1000000000 := by omega
  have e2 : t.natAbs / 1000000000 / 60 = t.natAbs / 60000000000 := by omega
  have e3 : t.natAbs / 60000000000 / 60 = t.natAbs / 3600000000000 := by omega
  have e4 : (t.natAbs / 3600000000000 + 8) % 2 ^ 64 = t.natAbs / 3600000000000 + 8 := by
    omega
  unfold hmsms_text
  simp only [abs_time_point_eq t hlo hhi, e1, e2, e3, e4]
  rw [as_int64_eq _ (by omega), as_int64_eq _ (by omega), as_int64_eq _ (by omega),
    as_int64_eq _ (by omega)]
  rw [fmt_d_zero_width_eq 2 _ (by norm_num) (by omega),
    fmt_d_zero_width_eq 2 _ (by norm_num) (by omega),
    fmt_d_zero_width_eq 2 _ (by norm_num) (by omega),
    fmt_d_zero_width_eq 3 _ (by norm_num) (by omega)]
  by_cases h : t < 0
  · have : ¬ t ≥ 0 := by omega
    simp [h, this]
  · have : t ≥ 0 := by omega
    simp [h, this]

theorem hmsms_text_length (t : Int) (hlo : INT64_MIN ≤ t) (hhi : t ≤ INT64_MAX) :
    (hmsms_text t).length = if t < 0 then 14 else 12 := by
  rw [hmsms_text_eq t hlo hhi]
  split <;> simp [fixedDigits_length]

theorem hmsms_text_ne_NUL (t : Int) (hlo : INT64_MIN ≤ t) (hhi : t ≤ INT64_MAX) :
    ∀ c ∈ hmsms_text t, c ≠ NUL := by
  rw [hmsms_text_eq t hlo hhi]
  intro c hc
  simp only [List.mem_append, List.mem_singleton] at hc
  rcases hc with ((((((h | h) | h) | h) | h) | h) | h) | h
  · split at h
    · simp at h; rcases h with rfl | rfl <;> decide
    · simp at h
  · exact fixedDigits_ne_NUL _ _ c h
  · subst h; decide
  · exact fixedDigits_ne_NUL _ _ c h
  · subst h; decide
  · exact fixedDigits_ne_NUL _ _ c h
  · subst h; decide
  · exact fixedDigits_ne_NUL _ _ c h

theorem hmsms_string_c_str (t : Int) (str str_size : Nat) (mem : Mem)
    (hlo : INT64_MIN ≤ t) (hhi : t ≤ INT64_MAX) (hcap : 15 ≤ str_size) :
    c_str (rcutils_time_point_value_as_hmsms_string rcutils_snprintf
        (some t) (some str) str_size mem).2 str str_size = hmsms_text t := by
  have hlen := hmsms_text_length t hlo hhi
  have hlen' : (hmsms_text t).length ≤ 14 := by rw [hlen]; split <;> omega
  rw [hmsms_string_run t str str_size mem (by omega)]
  simp only []
  rw [List.take_of_length_le (by omega),
    c_str_store mem str str_size _ (hmsms_text_ne_NUL t hlo hhi) (by omega)]

/-- C4. For every signed 64-bit timestamp `t` with absolute value `a` and every
capacity of at least 15, the C string that
`rcutils_time_point_value_as_hmsms_string` leaves in the buffer is the sign
prefix (`->` for a negative timestamp, nothing otherwise) followed by
`HH:MM:SS.mmm`, where `HH = (a / 3600000000000 + 8) mod 24`,
`MM = (a / 60000000000) mod 60`, `SS = (a / 1000000000) mod 60` and
`mmm = (a / 1000000) mod 1000` are written with 2, 2, 2 and 3 digits; so
`HH < 24`, `MM < 60`, `SS < 60`, and 12 characters follow the prefix. The
timestamp 0 gives `08:00:00.000` and 84600500000000 gives `07:30:00.500`. -/
theorem hmsms_string_value (t : Int) (str str_size : Nat) (mem : Mem)
    (hlo : INT64_MIN ≤ t) (hhi : t ≤ INT64_MAX) (hcap : 15 ≤ str_size) :
    c_str (rcutils_time_point_value_as_hmsms_string rcutils_snprintf
        (some t) (some str) str_size mem).2 str str_size
      = (if t < 0 then ['-', '>'] else [])
        ++ (fixedDigits 2 ((t.natAbs / 3600000000000 + 8) % 24) ++ [':']
        ++ fixedDigits 2 (t.natAbs / 60000000000 % 60) ++ [':']
        ++ fixedDigits 2 (t.natAbs / 1000000000 % 60) ++ ['.']
        ++ fixedDigits 3 (t.natAbs / 1000000 % 1000)) ∧
    (t.natAbs / 3600000000000 + 8) % 24 < 24 ∧
    t.natAbs / 60000000000 % 60 < 60 ∧
    t.natAbs / 1000000000 % 60 < 60 ∧
    (fixedDigits 2 ((t.natAbs / 3600000000000 + 8) % 24) ++ [':']
        ++ fixedDigits 2 (t.natAbs / 60000000000 % 60) ++ [':']
        ++ fixedDigits 2 (t.natAbs / 1000000000 % 60) ++ ['.']
        ++ fixedDigits 3 (t.natAbs / 1000000 % 1000)).length = 12 ∧
    c_str (rcutils_time_point_value_as_hmsms_string rcutils_snprintf
        (some 0) (some str) str_size mem).2 str str_size = "08:00:00.000".toList ∧
    c_str (rcutils_time_point_value_as_hmsms_string rcutils_snprintf
        (some 84600500000000) (some str) str_size mem).2 str str_size
      = "07:30:00.500".toList := by
  refine ⟨?_, Nat.mod_lt _ (by norm_num), Nat.mod_lt _ (by norm_num),
    Nat.mod_lt _ (by norm_num), by simp [fixedDigits_length], ?_, ?_⟩
  · rw [hmsms_string_c_str t str str_size mem hlo hhi hcap, hmsms_text_eq t hlo hhi]
    simp only [List.append_assoc]
  · rw [hmsms_string_c_str 0 str str_size mem (by decide) (by decide) hcap,
      hmsms_text_eq 0 (by decide) (by decide)]
    rfl
  · rw [hmsms_string_c_str 84600500000000 str str_size mem (by decide) (by decide) hcap,
      hmsms_text_eq 84600500000000 (by decide) (by decide)]
    rfl

/-- Witness of C4 at the timestamp -1, in a buffer of exactly 15 characters. -/
theorem hmsms_string_value_witness :
    (INT64_MIN ≤ -1 ∧ (-1 : Int) ≤ INT64_MAX ∧ 15 ≤ 15) ∧
    c_str (rcutils_time_point_value_as_hmsms_string rcutils_snprintf
        (some (-1)) (some 0) 15 (fun _ => 'x')).2 0 15 = "->08:00:00.000".toList :=
  ⟨⟨by decide, by decide, by decide⟩,
    (hmsms_string_value (-1) 0 15 (fun _ => 'x') (by decide) (by decide)
      (by decide)).1.trans (by rfl)⟩

/-! ## The date formatter -/

theorem load_length (m : Mem) (addr n : Nat) : (load m addr n).length = n := by
  simp [load]

theorem load_of_bytes (m : Mem) (addr : Nat) (L : List Char)
    (H : ∀ i (h : i < L.length), m (addr + i) = L[i]) : load m addr L.length = L := by
  apply List.ext_getElem
  · simp [load]
  · intro i h1 h2
    simp only [load, List.getElem_map, List.getElem_range]
    exact H i h2

theorem load_store (mem : Mem) (addr : Nat) (L : List Char) :
    load (store mem addr L) addr L.length = L :=
  load_of_bytes _ addr L (fun i h => store_apply_of_lt mem addr L i h)

theorem store_store_apply (mem : Mem) (addr : Nat) (A X B : List Char) (i : Nat)
    (h : i < (A ++ B).length) :
    store (store mem addr (A ++ X)) (addr + A.length) B (addr + i) = (A ++ B)[i] := by
  by_cases hi : i < A.length
  · rw [store_apply_of_outside _ _ _ _ (Or.inl (by omega)),
      store_apply_of_lt mem addr (A ++ X) i (by simp; omega),
      List.getElem_append_left hi, List.getElem_append_left hi]
  · have hj : i - A.length < B.length := by
      simp only [List.length_append] at h
      omega
    have e : addr + i = addr + A.length + (i - A.length) := by omega
    rw [e, store_apply_of_lt _ _ B _ hj, List.getElem_append_right (by omega)]

theorem date_string_run (P : Int → List Char) (t : Int) (s n : Nat) (mem : Mem)
    (hlo : INT64_MIN ≤ t) (hhi : t ≤ INT64_MAX) (hn : n ≠ 0)
    (hP : (P ((t.natAbs / 1000000000 : Nat) : Int)).length = 19) :
    rcutils_time_point_value_as_date_string P (some t) (some s) n mem
      = (.RCUTILS_RET_OK,
          (c_snprintf (store mem s (P ((t.natAbs / 1000000000 : Nat) : Int) ++ [NUL]))
            (s + (P ((t.natAbs / 1000000000 : Nat) : Int)).length) (size_t_sub n 19)
            (['.'] ++ (decimal (t.natAbs % 1000000000)).take 3)).mem) := by
  have ha := natAbs_lt_of_int64 t hlo hhi
  have hs : t.natAbs / 1000000000 < 2 ^ 63 := by omega
  unfold rcutils_time_point_value_as_date_string
  simp only [if_neg hn, abs_time_point_eq t hlo hhi, Nat.reduceMul, as_int64_eq _ hs,
    c_strftime, hP, fmt_u, fmt_s_prec, List.take_take]
  simp

theorem date_string_bytes (P : Int → List Char) (t : Int) (s n : Nat) (mem : Mem)
    (hlo : INT64_MIN ≤ t) (hhi : t ≤ INT64_MAX) (hn : n ≠ 0)
    (hP : (P ((t.natAbs / 1000000000 : Nat) : Int)).length = 19)
    (hsz : 5 ≤ size_t_sub n 19) (i : Nat)
    (hi : i < (P ((t.natAbs / 1000000000 : Nat) : Int)
      ++ (['.'] ++ (decimal (t.natAbs % 1000000000)).take 3 ++ [NUL])).length) :
    (rcutils_time_point_value_as_date_string P (some t) (some s) n mem).2 (s + i)
      = (P ((t.natAbs / 1000000000 : Nat) : Int)
          ++ (['.'] ++ (decimal (t.natAbs % 1000000000)).take 3 ++ [NUL]))[i] := by
  rw [date_string_run P t s n mem hlo hhi hn hP]
  have hlen : (['.'] ++ (decimal (t.natAbs % 1000000000)).take 3).length ≤ 4 := by
    simp only [List.length_append, List.length_take, List.length_singleton]
    omega
  simp only [c_snprintf]
  rw [if_neg (by omega), List.take_of_length_le (by omega)]
  exact store_store_apply mem s _ [NUL] _ i hi

theorem utc_calendar_text_length (now_t : Int) : (utc_calendar_text now_t).length = 19 := by
  simp [utc_calendar_text, fixedDigits_length]

/-- With the timestamp 0 and any 19-character calendar text, a call with
`str_size = 10` stores the whole calendar text, `.0` and a `NUL`. -/
theorem date_string_at_capacity_10 (P : Int → List Char) (str : Nat) (mem : Mem)
    (hP : (P 0).length = 19) :
    load (rcutils_time_point_value_as_date_string P (some 0) (some str) 10 mem).2 str 22
      = P 0 ++ ['.', '0', NUL] := by
  have hb := date_string_bytes P 0 str 10 mem (by decide) (by decide) (by decide) hP
    (by decide)
  have hd : decimal 0 = ['0'] := by rfl
  have key : ∀ i (h : i < (P 0 ++ ['.', '0', NUL]).length),
      (rcutils_time_point_value_as_date_string P (some 0) (some str) 10 mem).2 (str + i)
        = (P 0 ++ ['.', '0', NUL])[i] := by
    intro i h
    have := hb i (by simpa [hd] using h)
    simpa [hd] using this
  have hl : (P 0 ++ ['.', '0', NUL]).length = 22 := by simp [hP]
  rw [← hl]
  exact load_of_bytes _ _ _ key

/-- C5, the code at the failing input. With the timestamp 0, the UTC platform
and a buffer of capacity 10 in a memory full of `x`,
`rcutils_time_point_value_as_date_string` returns `RCUTILS_RET_OK` after storing
22 characters, `1970-01-01 00:00:00.0` and a `NUL`, at offsets 0 to 21: the
twelve characters at offsets 10 to 21 lie beyond the capacity, and the output
is not truncated. -/
theorem date_string_overruns_capacity_10 :
    (rcutils_time_point_value_as_date_string utc_calendar_text
        (some 0) (some 0) 10 (fun _ => 'x')).1 = rcutils_ret_t.RCUTILS_RET_OK ∧
    load (rcutils_time_point_value_as_date_string utc_calendar_text
        (some 0) (some 0) 10 (fun _ => 'x')).2 0 22
      = "1970-01-01 00:00:00.0".toList ++ [NUL] ∧
    load (fun _ => 'x') 10 12 = "xxxxxxxxxxxx".toList ∧
    load (rcutils_time_point_value_as_date_string utc_calendar_text
        (some 0) (some 0) 10 (fun _ => 'x')).2 10 12
      = " 00:00:00.0".toList ++ [NUL] := by
  refine ⟨by rfl, ?_, by rfl, by rfl⟩
  rw [date_string_at_capacity_10 utc_calendar_text 0 (fun _ => 'x')
    (utc_calendar_text_length 0)]
  rfl

/-! ## Zero capacity and null arguments -/

/-- C6. Called with present arguments and a capacity of zero, each of the four
formatters returns `RCUTILS_RET_OK` and hands back the memory it was given,
every character of the buffer unchanged, whatever the timestamp, the prior
contents, the bounded-print helper and the platform. -/
theorem zero_capacity_is_noop (snp : BoundedPrint) (P : Int → List Char)
    (t : Int) (str : Nat) (mem : Mem) :
    rcutils_time_point_value_as_nanoseconds_string snp (some t) (some str) 0 mem
      = (rcutils_ret_t.RCUTILS_RET_OK, mem) ∧
    rcutils_time_point_value_as_seconds_string snp (some t) (some str) 0 mem
      = (rcutils_ret_t.RCUTILS_RET_OK, mem) ∧
    rcutils_time_point_value_as_hmsms_string snp (some t) (some str) 0 mem
      = (rcutils_ret_t.RCUTILS_RET_OK, mem) ∧
    rcutils_time_point_value_as_date_string P (some t) (some str) 0 mem
      = (rcutils_ret_t.RCUTILS_RET_OK, mem) :=
  ⟨rfl, rfl, rfl, rfl⟩

/-- C7. For each of the four formatters and every capacity, zero included: if
the timestamp pointer or the buffer pointer is null the result is
`RCUTILS_RET_INVALID_ARGUMENT` and the memory is handed back unchanged; and if
both are present the result is not `RCUTILS_RET_INVALID_ARGUMENT`. -/
theorem null_arguments_rejected_first (snp : BoundedPrint) (P : Int → List Char)
    (time_point : Option Int) (str : Option Nat) (str_size : Nat) (mem : Mem) :
    ((time_point = none ∨ str = none) →
      rcutils_time_point_value_as_nanoseconds_string snp time_point str str_size mem
        = (rcutils_ret_t.RCUTILS_RET_INVALID_ARGUMENT, mem) ∧
      rcutils_time_point_value_as_seconds_string snp time_point str str_size mem
        = (rcutils_ret_t.RCUTILS_RET_INVALID_ARGUMENT, mem) ∧
      rcutils_time_point_value_as_hmsms_string snp time_point str str_size mem
        = (rcutils_ret_t.RCUTILS_RET_INVALID_ARGUMENT, mem) ∧
      rcutils_time_point_value_as_date_string P time_point str str_size mem
        = (rcutils_ret_t.RCUTILS_RET_INVALID_ARGUMENT, mem)) ∧
    ((time_point ≠ none ∧ str ≠ none) →
      (rcutils_time_point_value_as_nanoseconds_string snp time_point str str_size mem).1
        ≠ rcutils_ret_t.RCUTILS_RET_INVALID_ARGUMENT ∧
      (rcutils_time_point_value_as_seconds_string snp time_point str str_size mem).1
        ≠ rcutils_ret_t.RCUTILS_RET_INVALID_ARGUMENT ∧
      (rcutils_time_point_value_as_hmsms_string snp time_point str str_size mem).1
        ≠ rcutils_ret_t.RCUTILS_RET_INVALID_ARGUMENT ∧
      (rcutils_time_point_value_as_date_string P time_point str str_size mem).1
        ≠ rcutils_ret_t.RCUTILS_RET_INVALID_ARGUMENT) := by
  constructor
  · rintro (rfl | rfl)
    · exact ⟨rfl, rfl, rfl, rfl⟩
    · cases time_point <;> exact ⟨rfl, rfl, rfl, rfl⟩
  · rintro ⟨ht, hs⟩
    obtain ⟨t, rfl⟩ := Option.ne_none_iff_exists'.1 ht
    obtain ⟨s, rfl⟩ := Option.ne_none_iff_exists'.1 hs
    simp only [rcutils_time_point_value_as_nanoseconds_string,
      rcutils_time_point_value_as_seconds_string, rcutils_time_point_value_as_hmsms_string,
      rcutils_time_point_value_as_date_string]
    refine ⟨?_, ?_, ?_, ?_⟩ <;> split <;> (try split) <;> simp

/-- Witness of C7: a null buffer with capacity 0 and a present timestamp, and
both arguments present with capacity 0. -/
theorem null_arguments_rejected_first_witness :
    rcutils_time_point_value_as_nanoseconds_string rcutils_snprintf (some 5) none 0
        (fun _ => 'x') = (rcutils_ret_t.RCUTILS_RET_INVALID_ARGUMENT, fun _ => 'x') ∧
    (rcutils_time_point_value_as_date_string utc_calendar_text (some 5) (some 0) 0
        (fun _ => 'x')).1 ≠ rcutils_ret_t.RCUTILS_RET_INVALID_ARGUMENT :=
  ⟨((null_arguments_rejected_first rcutils_snprintf utc_calendar_text (some 5) none 0
      (fun _ => 'x')).1 (Or.inr rfl)).1,
    ((null_arguments_rejected_first rcutils_snprintf utc_calendar_text (some 5) (some 0) 0
      (fun _ => 'x')).2 ⟨by simp, by simp⟩).2.2.2⟩

/-! ## The text of the date formatter -/

theorem decimalFuel_isDigit (f n : Nat) : ∀ c ∈ decimalFuel f n, c.isDigit = true := by
  induction f generalizing n with
  | zero => simp [decimalFuel]
  | succ f ih =>
    intro c hc
    unfold decimalFuel at hc
    split at hc
    · rename_i h
      simp only [List.mem_singleton] at hc
      subst hc
      exact digitChar_isDigit n h
    · simp only [List.mem_append, List.mem_singleton] at hc
      rcases hc with hc | rfl
      · exact ih _ c hc
      · exact digitChar_isDigit _ (Nat.mod_lt _ (by norm_num))

theorem decimal_isDigit (n : Nat) : ∀ c ∈ decimal n, c.isDigit = true :=
  decimalFuel_isDigit (n + 1) n

theorem size_t_sub_eq (a b : Nat) (hb : b ≤ a) (ha : a < 2 ^ 64) : size_t_sub a b = a - b := by
  unfold size_t_sub
  have : b % 2 ^ 64 = b := Nat.mod_eq_of_lt (by omega)
  omega

/-- C8. For every signed 64-bit timestamp `t` with absolute value `a`, every
capacity from 24 up (within `size_t`), and every platform `P` whose calendar
text for `a / 1000000000` seconds has 19 characters,
`rcutils_time_point_value_as_date_string` leaves in the buffer that calendar
text, a `.`, the first three characters (all of them when there are fewer) of
the unpadded decimal digits of `a mod 1000000000`, and a terminating `NUL`; when
the calendar text has no `NUL` this is the C string in the buffer. -/
theorem date_string_value (P : Int → List Char) (t : Int) (str str_size : Nat) (mem : Mem)
    (hlo : INT64_MIN ≤ t) (hhi : t ≤ INT64_MAX)
    (hcap : 24 ≤ str_size) (hsize : str_size < 2 ^ 64)
    (hP : (P ((t.natAbs / 1000000000 : Nat) : Int)).length = 19) :
    load (rcutils_time_point_value_as_date_string P (some t) (some str) str_size mem).2 str
        (P ((t.natAbs / 1000000000 : Nat) : Int)
          ++ (['.'] ++ (decimal (t.natAbs % 1000000000)).take 3 ++ [NUL])).length
      = P ((t.natAbs / 1000000000 : Nat) : Int)
          ++ (['.'] ++ (decimal (t.natAbs % 1000000000)).take 3 ++ [NUL]) ∧
    ((∀ c ∈ P ((t.natAbs / 1000000000 : Nat) : Int), c ≠ NUL) →
      c_str (rcutils_time_point_value_as_date_string P (some t) (some str) str_size mem).2
          str str_size
        = P ((t.natAbs / 1000000000 : Nat) : Int)
          ++ ['.'] ++ (decimal (t.natAbs % 1000000000)).take 3) := by
  have hsz : 5 ≤ size_t_sub str_size 19 := by
    rw [size_t_sub_eq str_size 19 (by omega) hsize]
    omega
  have hb := date_string_bytes P t str str_size mem hlo hhi (by omega) hP hsz
  refine ⟨load_of_bytes _ _ _ hb, ?_⟩
  intro hnul
  apply c_str_of_bytes
  · intro c hc
    simp only [List.mem_append, List.mem_singleton] at hc
    rcases hc with (h | h) | h
    · exact hnul c h
    · subst h; decide
    · exact isDigit_ne_NUL c (decimal_isDigit _ c (List.mem_of_mem_take h))
  · simp only [List.length_append, List.length_take, List.length_singleton, hP]
    omega
  · intro i h
    have := hb i (by simpa [List.append_assoc] using h)
    simpa [List.append_assoc] using this

/-- Witness of C8 on the UTC platform: 1700000000 seconds and 5 milliseconds, in
a buffer of exactly 24 characters, gives `2023-11-14 22:13:20.500`. -/
theorem date_string_value_witness :
    (INT64_MIN ≤ 1700000000005000000 ∧ (1700000000005000000 : Int) ≤ INT64_MAX ∧
      24 ≤ 24 ∧ 24 < 2 ^ 64 ∧
      (utc_calendar_text (((1700000000005000000 : Int).natAbs / 1000000000 : Nat) : Int)).length
        = 19) ∧
    load (rcutils_time_point_value_as_date_string utc_calendar_text
        (some 1700000000005000000) (some 0) 24 (fun _ => 'x')).2 0 24
      = "2023-11-14 22:13:20.500".toList ++ [NUL] :=
  ⟨⟨by decide, by decide, by decide, by decide, utc_calendar_text_length _⟩,
    (date_string_value utc_calendar_text 1700000000005000000 0 24 (fun _ => 'x')
      (by decide) (by decide) (by decide) (by decide) (utc_calendar_text_length _)).1⟩

/-- C9, the code at the failing input. With the timestamp 0, the UTC platform
and a capacity of 24, the C string that `rcutils_time_point_value_as_date_string`
leaves in the buffer is `1970-01-01 00:00:00.0`: 21 characters, whose suffix
after the 19-character calendar text is `.0`, one digit and not three. -/
theorem date_string_suffix_too_short :
    c_str (rcutils_time_point_value_as_date_string utc_calendar_text
        (some 0) (some 0) 24 (fun _ => 'x')).2 0 24 = "1970-01-01 00:00:00.0".toList ∧
    (c_str (rcutils_time_point_value_as_date_string utc_calendar_text
        (some 0) (some 0) 24 (fun _ => 'x')).2 0 24).length = 21 ∧
    (c_str (rcutils_time_point_value_as_date_string utc_calendar_text
        (some 0) (some 0) 24 (fun _ => 'x')).2 0 24).drop 19 = ['.', '0'] :=
  ⟨by rfl, by rfl, by rfl⟩

/-! ## Truncation by the bounded print -/

theorem nanoseconds_text_length_le (t : Int) (hlo : INT64_MIN ≤ t) (hhi : t ≤ INT64_MAX) :
    (fmt_d_prec 19 t).length ≤ 20 := by
  rw [fmt_d_prec_eq 19 t (by norm_num) (natAbs_lt_of_int64 t hlo hhi)]
  split <;> simp [fixedDigits_length]

theorem nanoseconds_text_ne_NUL (t : Int) (hlo : INT64_MIN ≤ t) (hhi : t ≤ INT64_MAX) :
    ∀ c ∈ fmt_d_prec 19 t, c ≠ NUL := by
  rw [fmt_d_prec_eq 19 t (by norm_num) (natAbs_lt_of_int64 t hlo hhi)]
  intro c hc
  rcases List.mem_append.1 hc with h | h
  · split at h
    · simp at h; subst h; decide
    · simp at h
  · exact fixedDigits_ne_NUL _ _ c h

theorem nanoseconds_string_c_str (t : Int) (str str_size : Nat) (mem : Mem)
    (hlo : INT64_MIN ≤ t) (hhi : t ≤ INT64_MAX) (hcap : 21 ≤ str_size) :
    c_str (rcutils_time_point_value_as_nanoseconds_string rcutils_snprintf
        (some t) (some str) str_size mem).2 str str_size = fmt_d_prec 19 t := by
  have hlen := nanoseconds_text_length_le t hlo hhi
  rw [nanoseconds_string_run t str str_size mem (by omega)]
  simp only []
  rw [List.take_of_length_le (by omega),
    c_str_store mem str str_size _ (nanoseconds_text_ne_NUL t hlo hhi) (by omega)]

theorem store_truncated (mem : Mem) (str c : Nat) (F : List Char) (hc : 1 ≤ c) :
    load (store mem str (F.take (c - 1) ++ [NUL])) str (min F.length (c - 1) + 1)
      = F.take (min F.length (c - 1)) ++ [NUL] ∧
    ∀ a, (a < str ∨ str + c ≤ a) → store mem str (F.take (c - 1) ++ [NUL]) a = mem a := by
  have hk : F.take (min F.length (c - 1)) = F.take (c - 1) := by
    by_cases h : c - 1 ≤ F.length
    · rw [Nat.min_eq_right h]
    · rw [Nat.min_eq_left (by omega), List.take_of_length_le (le_refl _),
        List.take_of_length_le (by omega)]
  have hl : (F.take (c - 1) ++ [NUL]).length = min F.length (c - 1) + 1 := by
    simp only [List.length_append, List.length_take, List.length_singleton]
    rw [Nat.min_comm]
  constructor
  · rw [hk, ← hl]
    exact load_store mem str _
  · intro a ha
    apply store_apply_of_outside
    rw [hl]
    rcases ha with h | h
    · exact Or.inl h
    · right
      have : min F.length (c - 1) ≤ c - 1 := Nat.min_le_right _ _
      omega

/-- C10. For every signed 64-bit timestamp and every capacity `c` of at least 1,
with `F` the C string the formatter leaves when the capacity `big` is large
enough for the whole text (22 or more), each of
`rcutils_time_point_value_as_nanoseconds_string`,
`rcutils_time_point_value_as_seconds_string` and
`rcutils_time_point_value_as_hmsms_string` called with capacity `c` leaves in the
buffer the first `min (length F) (c - 1)` characters of `F` followed by a `NUL`,
and leaves unchanged every address outside the `c` characters of the buffer. -/
theorem formatters_truncate_safely (t : Int) (str c big : Nat) (mem : Mem)
    (hlo : INT64_MIN ≤ t) (hhi : t ≤ INT64_MAX) (hc : 1 ≤ c) (hbig : 22 ≤ big) :
    (load (rcutils_time_point_value_as_nanoseconds_string rcutils_snprintf
          (some t) (some str) c mem).2 str
        (min (c_str (rcutils_time_point_value_as_nanoseconds_string rcutils_snprintf
          (some t) (some str) big mem).2 str big).length (c - 1) + 1)
      = (c_str (rcutils_time_point_value_as_nanoseconds_string rcutils_snprintf
          (some t) (some str) big mem).2 str big).take
            (min (c_str (rcutils_time_point_value_as_nanoseconds_string rcutils_snprintf
              (some t) (some str) big mem).2 str big).length (c - 1)) ++ [NUL] ∧
      ∀ a, (a < str ∨ str + c ≤ a) →
        (rcutils_time_point_value_as_nanoseconds_string rcutils_snprintf
          (some t) (some str) c mem).2 a = mem a) ∧
    (load (rcutils_time_point_value_as_seconds_string rcutils_snprintf
          (some t) (some str) c mem).2 str
        (min (c_str (rcutils_time_point_value_as_seconds_string rcutils_snprintf
          (some t) (some str) big mem).2 str big).length (c - 1) + 1)
      = (c_str (rcutils_time_point_value_as_seconds_string rcutils_snprintf
          (some t) (some str) big mem).2 str big).take
            (min (c_str (rcutils_time_point_value_as_seconds_string rcutils_snprintf
              (some t) (some str) big mem).2 str big).length (c - 1)) ++ [NUL] ∧
      ∀ a, (a < str ∨ str + c ≤ a) →
        (rcutils_time_point_value_as_seconds_string rcutils_snprintf
          (some t) (some str) c mem).2 a = mem a) ∧
    (load (rcutils_time_point_value_as_hmsms_string rcutils_snprintf
          (some t) (some str) c mem).2 str
        (min (c_str (rcutils_time_point_value_as_hmsms_string rcutils_snprintf
          (some t) (some str) big mem).2 str big).length (c - 1) + 1)
      = (c_str (rcutils_time_point_value_as_hmsms_string rcutils_snprintf
          (some t) (some str) big mem).2 str big).take
            (min (c_str (rcutils_time_point_value_as_hmsms_string rcutils_snprintf
              (some t) (some str) big mem).2 str big).length (c - 1)) ++ [NUL] ∧
      ∀ a, (a < str ∨ str + c ≤ a) →
        (rcutils_time_point_value_as_hmsms_string rcutils_snprintf
          (some t) (some str) c mem).2 a = mem a) := by
  rw [nanoseconds_string_c_str t str big mem hlo hhi (by omega),
    seconds_string_c_str t str big mem hlo hhi hbig,
    hmsms_string_c_str t str big mem hlo hhi (by omega),
    nanoseconds_string_run t str c mem (by omega),
    seconds_string_run t str c mem (by omega),
    hmsms_string_run t str c mem (by omega)]
  exact ⟨store_truncated mem str c _ hc, store_truncated mem str c _ hc,
    store_truncated mem str c _ hc⟩

/-- Witness of C10: the greatest timestamp in a buffer of 5 characters; the
nanoseconds formatter leaves `9223` and a `NUL`, and the character after the
buffer is unchanged. -/
theorem formatters_truncate_safely_witness :
    (INT64_MIN ≤ INT64_MAX ∧ INT64_MAX ≤ INT64_MAX ∧ 1 ≤ 5 ∧ 22 ≤ 22) ∧
    load (rcutils_time_point_value_as_nanoseconds_string rcutils_snprintf
        (some INT64_MAX) (some 0) 5 (fun _ => 'x')).2 0 5 = "9223".toList ++ [NUL] ∧
    (rcutils_time_point_value_as_nanoseconds_string rcutils_snprintf
        (some INT64_MAX) (some 0) 5 (fun _ => 'x')).2 5 = 'x' :=
  ⟨⟨by decide, by decide, by decide, by decide⟩,
    (formatters_truncate_safely INT64_MAX 0 5 22 (fun _ => 'x') (by decide) (by decide)
      (by decide) (by decide)).1.1.trans (by rfl),
    (formatters_truncate_safely INT64_MAX 0 5 22 (fun _ => 'x') (by decide) (by decide)
      (by decide) (by decide)).1.2 5 (Or.inr (by decide))⟩

/-! ## Where the date formatter stays inside the buffer -/

/-- From a capacity of 20 up the date formatter changes no address outside the
buffer. -/
theorem date_string_frame_of_capacity_ge_20 (P : Int → List Char) (t : Int) (s n : Nat)
    (mem : Mem) (hlo : INT64_MIN ≤ t) (hhi : t ≤ INT64_MAX)
    (hn : 20 ≤ n) (hsize : n < 2 ^ 64)
    (hP : (P ((t.natAbs / 1000000000 : Nat) : Int)).length = 19)
    (a : Nat) (ha : a < s ∨ s + n ≤ a) :
    (rcutils_time_point_value_as_date_string P (some t) (some s) n mem).2 a = mem a := by
  rw [date_string_run P t s n mem hlo hhi (by omega) hP]
  simp only [c_snprintf]
  rw [size_t_sub_eq n 19 (by omega) hsize, if_neg (by omega),
    store_apply_of_outside _ _ _ _ (by
      simp only [List.length_append, List.length_take, List.length_singleton, hP]
      omega),
    store_apply_of_outside _ _ _ _ (by
      simp only [List.length_append, List.length_singleton, hP]
      omega)]

/-- Below a capacity of 20 the date formatter stores a character at offset 19,
which is outside the buffer: the `NUL` of the calendar text, or the `.` of the
suffix over it. -/
theorem date_string_overrun_of_capacity_lt_20 (P : Int → List Char) (t : Int) (s n : Nat)
    (mem : Mem) (hlo : INT64_MIN ≤ t) (hhi : t ≤ INT64_MAX)
    (hn1 : 1 ≤ n) (hn : n < 20)
    (hP : (P ((t.natAbs / 1000000000 : Nat) : Int)).length = 19) :
    (rcutils_time_point_value_as_date_string P (some t) (some s) n mem).2 (s + 19) = NUL ∨
    (rcutils_time_point_value_as_date_string P (some t) (some s) n mem).2 (s + 19) = '.' := by
  rw [date_string_run P t s n mem hlo hhi (by omega) hP]
  simp only [c_snprintf, hP]
  by_cases h0 : size_t_sub n 19 = 0
  · left
    rw [if_pos h0]
    have := store_apply_of_lt mem s (P ((t.natAbs / 1000000000 : Nat) : Int) ++ [NUL]) 19
      (by rw [List.length_append, hP]; decide)
    rw [this, List.getElem_append_right (by omega)]
    simp only [hP, Nat.sub_self, List.getElem_cons_zero]
  · rw [if_neg h0]
    have h1 : size_t_sub n 19 - 1 = 0 ∨ 1 ≤ size_t_sub n 19 - 1 := by omega
    rcases h1 with h1 | h1
    · left
      rw [h1]
      have := store_apply_of_lt (store mem s (P ((t.natAbs / 1000000000 : Nat) : Int) ++ [NUL]))
        (s + 19) (List.take 0 (['.'] ++ (decimal (t.natAbs % 1000000000)).take 3) ++ [NUL]) 0
        (by simp)
      simpa using this
    · right
      obtain ⟨k, hk⟩ : ∃ k, size_t_sub n 19 - 1 = k + 1 := ⟨size_t_sub n 19 - 2, by omega⟩
      rw [hk]
      have := store_apply_of_lt (store mem s (P ((t.natAbs / 1000000000 : Nat) : Int) ++ [NUL]))
        (s + 19) (List.take (k + 1) (['.'] ++ (decimal (t.natAbs % 1000000000)).take 3)
          ++ [NUL]) 0 (by simp)
      simpa using this

/-! ## Sign markers and the shape of the nanoseconds text -/

theorem fixedDigits_head (w n : Nat) :
    ∃ c rest, fixedDigits (w + 1) n = c :: rest ∧ c.isDigit = true := by
  have hl := fixedDigits_length (w + 1) n
  have hd := fixedDigits_isDigit (w + 1) n
  cases h : fixedDigits (w + 1) n with
  | nil => rw [h] at hl; simp at hl
  | cons c rest =>
    rw [h] at hd
    exact ⟨c, rest, rfl, hd c (by simp)⟩

theorem seconds_text_neg (t : Int) (hpos : 0 < t) (hhi : t ≤ INT64_MAX) :
    seconds_text (-t) = ['-'] ++ seconds_text t := by
  have hlo : INT64_MIN ≤ t := by unfold INT64_MIN; omega
  have hlo' : INT64_MIN ≤ -t := by unfold INT64_MIN; unfold INT64_MAX at hhi; omega
  have hhi' : -t ≤ INT64_MAX := by unfold INT64_MAX; omega
  rw [seconds_text_eq t hlo hhi, seconds_text_eq (-t) hlo' hhi', Int.natAbs_neg,
    if_pos (by omega : -t < 0), if_neg (by omega : ¬ t < 0)]
  simp

theorem hmsms_text_neg (t : Int) (hpos : 0 < t) (hhi : t ≤ INT64_MAX) :
    hmsms_text (-t) = ['-', '>'] ++ hmsms_text t := by
  have hlo : INT64_MIN ≤ t := by unfold INT64_MIN; omega
  have hlo' : INT64_MIN ≤ -t := by unfold INT64_MIN; unfold INT64_MAX at hhi; omega
  have hhi' : -t ≤ INT64_MAX := by unfold INT64_MAX; omega
  rw [hmsms_text_eq t hlo hhi, hmsms_text_eq (-t) hlo' hhi', Int.natAbs_neg,
    if_pos (by omega : -t < 0), if_neg (by omega : ¬ t < 0)]
  simp

theorem seconds_text_nonneg (t : Int) (h0 : 0 ≤ t) (hhi : t ≤ INT64_MAX) :
    (∃ c rest, seconds_text t = c :: rest ∧ c.isDigit = true) ∧ '-' ∉ seconds_text t := by
  have hlo : INT64_MIN ≤ t := by unfold INT64_MIN; omega
  rw [seconds_text_eq t hlo hhi, if_neg (by omega : ¬ t < 0)]
  constructor
  · obtain ⟨c, rest, hc, hd⟩ := fixedDigits_head 9 (t.natAbs / 1000000000)
    exact ⟨c, rest ++ ['.'] ++ fixedDigits 9 (t.natAbs % 1000000000), by simp [hc], hd⟩
  · intro hm
    simp only [List.nil_append, List.mem_append, List.mem_singleton] at hm
    rcases hm with (h | h) | h
    · exact absurd (fixedDigits_isDigit _ _ _ h) (by decide)
    · exact absurd h (by decide)
    · exact absurd (fixedDigits_isDigit _ _ _ h) (by decide)

theorem hmsms_text_nonneg (t : Int) (h0 : 0 ≤ t) (hhi : t ≤ INT64_MAX) :
    (∃ c rest, hmsms_text t = c :: rest ∧ c.isDigit = true) ∧
    '-' ∉ hmsms_text t ∧ '>' ∉ hmsms_text t := by
  have hlo : INT64_MIN ≤ t := by unfold INT64_MIN; omega
  rw [hmsms_text_eq t hlo hhi, if_neg (by omega : ¬ t < 0)]
  refine ⟨?_, ?_, ?_⟩
  · obtain ⟨c, rest, hc, hd⟩ := fixedDigits_head 1 ((t.natAbs / 3600000000000 + 8) % 24)
    have hc' : fixedDigits 2 ((t.natAbs / 3600000000000 + 8) % 24) = c :: rest := hc
    exact ⟨c, rest ++ [':'] ++ fixedDigits 2 (t.natAbs / 60000000000 % 60) ++ [':']
      ++ fixedDigits 2 (t.natAbs / 1000000000 % 60) ++ ['.']
      ++ fixedDigits 3 (t.natAbs / 1000000 % 1000), by rw [List.nil_append, hc']; rfl, hd⟩
  · intro hm
    simp only [List.nil_append, List.mem_append, List.mem_singleton] at hm
    rcases hm with (((((h | h) | h) | h) | h) | h) | h
    · exact absurd (fixedDigits_isDigit _ _ _ h) (by decide)
    · exact absurd h (by decide)
    · exact absurd (fixedDigits_isDigit _ _ _ h) (by decide)
    · exact absurd h (by decide)
    · exact absurd (fixedDigits_isDigit _ _ _ h) (by decide)
    · exact absurd h (by decide)
    · exact absurd (fixedDigits_isDigit _ _ _ h) (by decide)
  · intro hm
    simp only [List.nil_append, List.mem_append, List.mem_singleton] at hm
    rcases hm with (((((h | h) | h) | h) | h) | h) | h
    · exact absurd (fixedDigits_isDigit _ _ _ h) (by decide)
    · exact absurd h (by decide)
    · exact absurd (fixedDigits_isDigit _ _ _ h) (by decide)
    · exact absurd h (by decide)
    · exact absurd (fixedDigits_isDigit _ _ _ h) (by decide)
    · exact absurd h (by decide)
    · exact absurd (fixedDigits_isDigit _ _ _ h) (by decide)

/-- C11. With capacities that hold the whole text (22 for the seconds
formatter, 15 for the clock formatter): for every `t` with
`0 < t <= INT64_MAX` the C string of
`rcutils_time_point_value_as_seconds_string` for `-t` is `-` followed by the one
for `t`, and the C string of `rcutils_time_point_value_as_hmsms_string` for `-t`
is the two characters `->` followed by the one for `t`; and for every `t` with
`0 <= t <= INT64_MAX` each of the two C strings begins with a decimal digit and
holds no `-` (nor `>`) anywhere. -/
theorem negative_marker_then_absolute_text (t : Int) (str a b : Nat) (mem : Mem)
    (hhi : t ≤ INT64_MAX) (ha : 22 ≤ a) (hb : 15 ≤ b) :
    (0 < t →
      c_str (rcutils_time_point_value_as_seconds_string rcutils_snprintf
          (some (-t)) (some str) a mem).2 str a
        = ['-'] ++ c_str (rcutils_time_point_value_as_seconds_string rcutils_snprintf
          (some t) (some str) a mem).2 str a ∧
      c_str (rcutils_time_point_value_as_hmsms_string rcutils_snprintf
          (some (-t)) (some str) b mem).2 str b
        = ['-', '>'] ++ c_str (rcutils_time_point_value_as_hmsms_string rcutils_snprintf
          (some t) (some str) b mem).2 str b) ∧
    (0 ≤ t →
      (∃ c rest, c_str (rcutils_time_point_value_as_seconds_string rcutils_snprintf
          (some t) (some str) a mem).2 str a = c :: rest ∧ c.isDigit = true) ∧
      '-' ∉ c_str (rcutils_time_point_value_as_seconds_string rcutils_snprintf
          (some t) (some str) a mem).2 str a ∧
      (∃ c rest, c_str (rcutils_time_point_value_as_hmsms_string rcutils_snprintf
          (some t) (some str) b mem).2 str b = c :: rest ∧ c.isDigit = true) ∧
      '-' ∉ c_str (rcutils_time_point_value_as_hmsms_string rcutils_snprintf
          (some t) (some str) b mem).2 str b ∧
      '>' ∉ c_str (rcutils_time_point_value_as_hmsms_string rcutils_snprintf
          (some t) (some str) b mem).2 str b) := by
  constructor
  · intro hpos
    have hlo : INT64_MIN ≤ t := by unfold INT64_MIN; omega
    have hlo' : INT64_MIN ≤ -t := by unfold INT64_MIN; unfold INT64_MAX at hhi; omega
    have hhi' : -t ≤ INT64_MAX := by unfold INT64_MAX; omega
    rw [seconds_string_c_str t str a mem hlo hhi ha,
      seconds_string_c_str (-t) str a mem hlo' hhi' ha,
      hmsms_string_c_str t str b mem hlo hhi hb,
      hmsms_string_c_str (-t) str b mem hlo' hhi' hb]
    exact ⟨seconds_text_neg t hpos hhi, hmsms_text_neg t hpos hhi⟩
  · intro h0
    have hlo : INT64_MIN ≤ t := by unfold INT64_MIN; omega
    rw [seconds_string_c_str t str a mem hlo hhi ha,
      hmsms_string_c_str t str b mem hlo hhi hb]
    exact ⟨(seconds_text_nonneg t h0 hhi).1, (seconds_text_nonneg t h0 hhi).2,
      (hmsms_text_nonneg t h0 hhi).1, (hmsms_text_nonneg t h0 hhi).2.1,
      (hmsms_text_nonneg t h0 hhi).2.2⟩

/-- Witness of C11 at the greatest timestamp: the clock text of its negation
is `->` followed by its own clock text, `07:47:16.854`. -/
theorem negative_marker_then_absolute_text_witness :
    (INT64_MAX ≤ INT64_MAX ∧ 22 ≤ 22 ∧ 15 ≤ 15 ∧ 0 < INT64_MAX) ∧
    c_str (rcutils_time_point_value_as_hmsms_string rcutils_snprintf
        (some (-INT64_MAX)) (some 0) 15 (fun _ => 'x')).2 0 15
      = ['-', '>'] ++ c_str (rcutils_time_point_value_as_hmsms_string rcutils_snprintf
        (some INT64_MAX) (some 0) 15 (fun _ => 'x')).2 0 15 ∧
    c_str (rcutils_time_point_value_as_hmsms_string rcutils_snprintf
        (some INT64_MAX) (some 0) 15 (fun _ => 'x')).2 0 15 = "07:47:16.854".toList :=
  ⟨⟨by decide, by decide, by decide, by decide⟩,
    ((negative_marker_then_absolute_text INT64_MAX 0 22 15 (fun _ => 'x') (by decide)
      (by decide) (by decide)).1 (by decide)).2, by rfl⟩

/-- C12. For every signed 64-bit timestamp and every capacity of at least 21,
the C string that `rcutils_time_point_value_as_nanoseconds_string` leaves in the
buffer is exactly 19 decimal digits, with one `-` before them exactly when the
timestamp is negative: its length is 19 for a timestamp that is not negative
and 20 for a negative one, and the timestamp 0 gives nineteen `0` characters. -/
theorem nanoseconds_string_shape (t : Int) (str str_size : Nat) (mem : Mem)
    (hlo : INT64_MIN ≤ t) (hhi : t ≤ INT64_MAX) (hcap : 21 ≤ str_size) :
    (∃ D : List Char, D.length = 19 ∧ (∀ c ∈ D, c.isDigit = true) ∧
      c_str (rcutils_time_point_value_as_nanoseconds_string rcutils_snprintf
          (some t) (some str) str_size mem).2 str str_size
        = (if t < 0 then ['-'] else []) ++ D) ∧
    (c_str (rcutils_time_point_value_as_nanoseconds_string rcutils_snprintf
        (some t) (some str) str_size mem).2 str str_size).length
      = (if t < 0 then 20 else 19) ∧
    c_str (rcutils_time_point_value_as_nanoseconds_string rcutils_snprintf
        (some 0) (some str) str_size mem).2 str str_size = List.replicate 19 '0' := by
  have hF := fmt_d_prec_eq 19 t (by norm_num) (natAbs_lt_of_int64 t hlo hhi)
  rw [nanoseconds_string_c_str t str str_size mem hlo hhi hcap,
    nanoseconds_string_c_str 0 str str_size mem (by decide) (by decide) hcap]
  refine ⟨⟨fixedDigits 19 t.natAbs, fixedDigits_length _ _, fixedDigits_isDigit _ _, hF⟩,
    ?_, by rfl⟩
  rw [hF]
  split <;> simp [fixedDigits_length]

/-- Witness of C12 at the least timestamp, in a buffer of exactly 21 characters. -/
theorem nanoseconds_string_shape_witness :
    (INT64_MIN ≤ INT64_MIN ∧ INT64_MIN ≤ INT64_MAX ∧ 21 ≤ 21) ∧
    (c_str (rcutils_time_point_value_as_nanoseconds_string rcutils_snprintf
        (some INT64_MIN) (some 0) 21 (fun _ => 'x')).2 0 21).length
      = (if INT64_MIN < 0 then 20 else 19) :=
  ⟨⟨by decide, by decide, by decide⟩,
    (nanoseconds_string_shape INT64_MIN 0 21 (fun _ => 'x') (by decide) (by decide)
      (by decide)).2.1⟩

/-! ## Return codes of the rendering step -/

/-- C13. For present arguments and a capacity of at least 1, with the bounded
print helper as an arbitrary step `snp`: each of
`rcutils_time_point_value_as_nanoseconds_string`,
`rcutils_time_point_value_as_seconds_string` and
`rcutils_time_point_value_as_hmsms_string` returns `RCUTILS_RET_ERROR` exactly
when the step, called on the buffer with the capacity and the formatter's text,
returns a negative value, and returns `RCUTILS_RET_OK` otherwise; with the
modelled `rcutils_snprintf`, which returns the length of the whole text, every
call is a success, truncated or not. -/
theorem format_error_iff_print_negative (snp : BoundedPrint) (t : Int) (str str_size : Nat)
    (mem : Mem) (hcap : 1 ≤ str_size) :
    (((rcutils_time_point_value_as_nanoseconds_string snp (some t) (some str) str_size mem).1
        = rcutils_ret_t.RCUTILS_RET_ERROR ↔ (snp mem str str_size (fmt_d_prec 19 t)).ret < 0) ∧
      (¬ (snp mem str str_size (fmt_d_prec 19 t)).ret < 0 →
        (rcutils_time_point_value_as_nanoseconds_string snp (some t) (some str) str_size mem).1
          = rcutils_ret_t.RCUTILS_RET_OK)) ∧
    (((rcutils_time_point_value_as_seconds_string snp (some t) (some str) str_size mem).1
        = rcutils_ret_t.RCUTILS_RET_ERROR ↔ (snp mem str str_size (seconds_text t)).ret < 0) ∧
      (¬ (snp mem str str_size (seconds_text t)).ret < 0 →
        (rcutils_time_point_value_as_seconds_string snp (some t) (some str) str_size mem).1
          = rcutils_ret_t.RCUTILS_RET_OK)) ∧
    (((rcutils_time_point_value_as_hmsms_string snp (some t) (some str) str_size mem).1
        = rcutils_ret_t.RCUTILS_RET_ERROR ↔ (snp mem str str_size (hmsms_text t)).ret < 0) ∧
      (¬ (snp mem str str_size (hmsms_text t)).ret < 0 →
        (rcutils_time_point_value_as_hmsms_string snp (some t) (some str) str_size mem).1
          = rcutils_ret_t.RCUTILS_RET_OK)) ∧
    ((rcutils_time_point_value_as_nanoseconds_string rcutils_snprintf
        (some t) (some str) str_size mem).1 = rcutils_ret_t.RCUTILS_RET_OK ∧
      (rcutils_time_point_value_as_seconds_string rcutils_snprintf
        (some t) (some str) str_size mem).1 = rcutils_ret_t.RCUTILS_RET_OK ∧
      (rcutils_time_point_value_as_hmsms_string rcutils_snprintf
        (some t) (some str) str_size mem).1 = rcutils_ret_t.RCUTILS_RET_OK) := by
  have hn : str_size ≠ 0 := by omega
  refine ⟨⟨?_, ?_⟩, ⟨?_, ?_⟩, ⟨?_, ?_⟩, ?_, ?_, ?_⟩
  · simp only [rcutils_time_point_value_as_nanoseconds_string, if_neg hn]
    split <;> simp [*]
  · intro h
    simp only [rcutils_time_point_value_as_nanoseconds_string, if_neg hn, if_neg h]
  · simp only [rcutils_time_point_value_as_seconds_string, if_neg hn]
    split <;> simp [*]
  · intro h
    simp only [rcutils_time_point_value_as_seconds_string, if_neg hn, if_neg h]
  · simp only [rcutils_time_point_value_as_hmsms_string, if_neg hn]
    split <;> simp [*]
  · intro h
    simp only [rcutils_time_point_value_as_hmsms_string, if_neg hn, if_neg h]
  · rw [nanoseconds_string_run t str str_size mem hn]
  · rw [seconds_string_run t str str_size mem hn]
  · rw [hmsms_string_run t str str_size mem hn]

/-- Witness of C13: a step that returns -1 makes the nanoseconds formatter
return `RCUTILS_RET_ERROR` at capacity 1. -/
theorem format_error_iff_print_negative_witness :
    1 ≤ 1 ∧
    (rcutils_time_point_value_as_nanoseconds_string (fun m _ _ _ => { ret := -1, mem := m })
      (some 5) (some 0) 1 (fun _ => 'x')).1 = rcutils_ret_t.RCUTILS_RET_ERROR :=
  ⟨by decide,
    (format_error_iff_print_negative (fun m _ _ _ => { ret := -1, mem := m }) 5 0 1
      (fun _ => 'x') (by decide)).1.1.2 (by decide)⟩

/-- C14. For every timestamp, every non-null buffer, every capacity and every
platform, `rcutils_time_point_value_as_date_string` returns `RCUTILS_RET_OK`; so
does the same function with `strftime` and the suffix `snprintf` replaced by
arbitrary steps, whatever they return, and the function is that one at the C
library steps. -/
theorem date_string_always_ok
    (strftime_step : Mem → Nat → Nat → List Char → PrintResult)
    (snprintf_step : BoundedPrint) (P : Int → List Char)
    (t : Int) (str str_size : Nat) (mem : Mem) :
    (rcutils_time_point_value_as_date_string P (some t) (some str) str_size mem).1
      = rcutils_ret_t.RCUTILS_RET_OK ∧
    (rcutils_time_point_value_as_date_string_steps strftime_step snprintf_step P
      (some t) (some str) str_size mem).1 = rcutils_ret_t.RCUTILS_RET_OK ∧
    rcutils_time_point_value_as_date_string P (some t) (some str) str_size mem
      = rcutils_time_point_value_as_date_string_steps c_strftime c_snprintf P
          (some t) (some str) str_size mem := by
  refine ⟨?_, ?_, rfl⟩
  · simp only [rcutils_time_point_value_as_date_string]
    split <;> rfl
  · simp only [rcutils_time_point_value_as_date_string_steps]
    split <;> rfl

/-! ## What the clock formatter forgets -/

theorem hmsms_call_congr (snp : BoundedPrint) (t u : Int) (str : Option Nat) (n : Nat)
    (mem : Mem) (h : hmsms_text t = hmsms_text u) :
    rcutils_time_point_value_as_hmsms_string snp (some t) str n mem
      = rcutils_time_point_value_as_hmsms_string snp (some u) str n mem := by
  simp only [rcutils_time_point_value_as_hmsms_string, h]

theorem hmsms_text_congr (t u : Int) (ht1 : INT64_MIN ≤ t) (ht2 : t ≤ INT64_MAX)
    (hu1 : INT64_MIN ≤ u) (hu2 : u ≤ INT64_MAX) (hsign : 0 ≤ t ↔ 0 ≤ u)
    (hms : t.natAbs / 1000000 = u.natAbs / 1000000) : hmsms_text t = hmsms_text u := by
  have hge : (t ≥ 0) = (u ≥ 0) := propext hsign
  unfold hmsms_text
  simp only [abs_time_point_eq t ht1 ht2, abs_time_point_eq u hu1 hu2, hms, hge]

/-- C15. For every two signed 64-bit timestamps `t` and `u` of the same sign
class (both at least 0, or both negative) with `|t| / 1000000 = |u| / 1000000`,
the calls of `rcutils_time_point_value_as_hmsms_string` on `t` and on `u` give
the same result and the same memory, for every buffer, capacity and print
helper; in particular, for `t >= 0`, the call on `t` and the call on
`t - t mod 1000000`. -/
theorem hmsms_discards_sub_millisecond (snp : BoundedPrint) (t u : Int) (str : Option Nat)
    (str_size : Nat) (mem : Mem)
    (ht1 : INT64_MIN ≤ t) (ht2 : t ≤ INT64_MAX) (hu1 : INT64_MIN ≤ u) (hu2 : u ≤ INT64_MAX)
    (hsign : 0 ≤ t ↔ 0 ≤ u) (hms : t.natAbs / 1000000 = u.natAbs / 1000000) :
    rcutils_time_point_value_as_hmsms_string snp (some t) str str_size mem
      = rcutils_time_point_value_as_hmsms_string snp (some u) str str_size mem ∧
    (0 ≤ t →
      rcutils_time_point_value_as_hmsms_string snp (some t) str str_size mem
        = rcutils_time_point_value_as_hmsms_string snp (some (t - t % 1000000)) str
            str_size mem) := by
  refine ⟨hmsms_call_congr snp t u str str_size mem
    (hmsms_text_congr t u ht1 ht2 hu1 hu2 hsign hms), ?_⟩
  intro h0
  apply hmsms_call_congr
  apply hmsms_text_congr t (t - t % 1000000) ht1 ht2
  · unfold INT64_MIN; omega
  · unfold INT64_MAX at ht2 ⊢; omega
  · constructor <;> intro _ <;> omega
  · omega

/-- Witness of C15: 1999999 and 1000000 nanoseconds are both written as
`08:00:00.001`. -/
theorem hmsms_discards_sub_millisecond_witness :
    (INT64_MIN ≤ 1999999 ∧ (1999999 : Int) ≤ INT64_MAX ∧ INT64_MIN ≤ 1000000 ∧
      (1000000 : Int) ≤ INT64_MAX ∧ ((0 : Int) ≤ 1999999 ↔ (0 : Int) ≤ 1000000) ∧
      (1999999 : Int).natAbs / 1000000 = (1000000 : Int).natAbs / 1000000) ∧
    rcutils_time_point_value_as_hmsms_string rcutils_snprintf (some 1999999) (some 0) 15
        (fun _ => 'x')
      = rcutils_time_point_value_as_hmsms_string rcutils_snprintf (some 1000000) (some 0) 15
        (fun _ => 'x') ∧
    c_str (rcutils_time_point_value_as_hmsms_string rcutils_snprintf (some 1999999) (some 0) 15
        (fun _ => 'x')).2 0 15 = "08:00:00.001".toList :=
  ⟨⟨by decide, by decide, by decide, by decide, by decide, by decide⟩,
    (hmsms_discards_sub_millisecond rcutils_snprintf 1999999 1000000 (some 0) 15
      (fun _ => 'x') (by decide) (by decide) (by decide) (by decide) (by decide)
      (by decide)).1, by rfl⟩

/-- C16. For every timestamp `t >= 0` with `t + 86400000000000 <= INT64_MAX`,
the call of `rcutils_time_point_value_as_hmsms_string` on
`t + 86400000000000` gives the same result and the same memory as the call on
`t`, for every buffer, capacity and print helper: the day count is dropped. -/
theorem hmsms_periodic_in_one_day (snp : BoundedPrint) (t : Int) (str : Option Nat)
    (str_size : Nat) (mem : Mem) (h0 : 0 ≤ t) (hhi : t + 86400000000000 ≤ INT64_MAX) :
    rcutils_time_point_value_as_hmsms_string snp (some (t + 86400000000000)) str str_size mem
      = rcutils_time_point_value_as_hmsms_string snp (some t) str str_size mem := by
  apply hmsms_call_congr
  have hlo : INT64_MIN ≤ t := by unfold INT64_MIN; omega
  have hhi' : t ≤ INT64_MAX := by omega
  have hlo2 : INT64_MIN ≤ t + 86400000000000 := by unfold INT64_MIN; omega
  have hab : (t + 86400000000000).natAbs = t.natAbs + 86400000000000 := by omega
  rw [hmsms_text_eq t hlo hhi', hmsms_text_eq _ hlo2 hhi, hab,
    if_neg (by omega : ¬ t < 0), if_neg (by omega : ¬ t + 86400000000000 < 0)]
  have e1 : ((t.natAbs + 86400000000000) / 3600000000000 + 8) % 24
      = (t.natAbs / 3600000000000 + 8) % 24 := by omega
  have e2 : (t.natAbs + 86400000000000) / 60000000000 % 60
      = t.natAbs / 60000000000 % 60 := by omega
  have e3 : (t.natAbs + 86400000000000) / 1000000000 % 60
      = t.natAbs / 1000000000 % 60 := by omega
  have e4 : (t.natAbs + 86400000000000) / 1000000 % 1000
      = t.natAbs / 1000000 % 1000 := by omega
  rw [e1, e2, e3, e4]

/-- Witness of C16: one day after the epoch the clock text is again
`08:00:00.000`. -/
theorem hmsms_periodic_in_one_day_witness :
    ((0 : Int) ≤ 0 ∧ (0 : Int) + 86400000000000 ≤ INT64_MAX) ∧
    rcutils_time_point_value_as_hmsms_string rcutils_snprintf (some (0 + 86400000000000))
        (some 0) 15 (fun _ => 'x')
      = rcutils_time_point_value_as_hmsms_string rcutils_snprintf (some 0) (some 0) 15
        (fun _ => 'x') ∧
    c_str (rcutils_time_point_value_as_hmsms_string rcutils_snprintf (some (0 + 86400000000000))
        (some 0) 15 (fun _ => 'x')).2 0 15 = "08:00:00.000".toList :=
  ⟨⟨by decide, by decide⟩,
    hmsms_periodic_in_one_day rcutils_snprintf 0 (some 0) 15 (fun _ => 'x') (by decide)
      (by decide), by rfl⟩

/-! ## The fraction of the date formatter -/

theorem fixedDigits_add (a b n : Nat) :
    fixedDigits (a + b) n = fixedDigits a (n / 10 ^ b) ++ fixedDigits b n := by
  induction b generalizing n with
  | zero => simp [fixedDigits]
  | succ b ih =>
    have e : n / 10 / 10 ^ b = n / 10 ^ (b + 1) := by
      rw [Nat.div_div_eq_div_mul, pow_succ']
    rw [← Nat.add_assoc]
    simp only [fixedDigits, ih (n / 10), e, List.append_assoc]

theorem decimalFuel_length_ge (k : Nat) : ∀ (n f : Nat), 10 ^ k ≤ n → n < 10 ^ f →
    k + 1 ≤ (decimalFuel f n).length := by
  induction k with
  | zero =>
    intro n f hk hf
    rcases f with _ | f
    · simp at hf hk; omega
    · unfold decimalFuel
      split <;> simp
  | succ k ih =>
    intro n f hk hf
    have h10 : 10 ≤ n := by
      have : 1 ≤ 10 ^ k := Nat.one_le_pow _ _ (by norm_num)
      have : 10 ^ (k + 1) = 10 * 10 ^ k := by ring
      omega
    rcases f with _ | f
    · simp at hf; omega
    · unfold decimalFuel
      rw [if_neg (by omega)]
      have hk' : 10 ^ k ≤ n / 10 := by
        have : 10 ^ (k + 1) = 10 * 10 ^ k := by ring
        omega
      have hf' : n / 10 < 10 ^ f := by
        have : 10 ^ (f + 1) = 10 * 10 ^ f := by ring
        omega
      have := ih (n / 10) f hk' hf'
      simp only [List.length_append, List.length_singleton]
      omega

theorem decimal_eq_fixedDigits (k n : Nat) (hlo : 10 ^ k ≤ n) (hhi : n < 10 ^ (k + 1)) :
    decimal n = fixedDigits (k + 1) n := by
  have hl : k + 1 ≤ (decimal n).length := decimalFuel_length_ge k n (n + 1) hlo (lt_ten_pow_succ n)
  have hp := pad_decimal (k + 1) n (by omega) hhi
  rw [Nat.sub_eq_zero_of_le hl] at hp
  simpa using hp

theorem decimalFuel_head (f : Nat) : ∀ n : Nat, 1 ≤ n → n < 10 ^ f →
    ∃ d rest, 1 ≤ d ∧ d < 10 ∧ decimalFuel f n = digitChar d :: rest := by
  induction f with
  | zero => intro n h1 hf; simp at hf; omega
  | succ f ih =>
    intro n h1 hf
    unfold decimalFuel
    by_cases h10 : n < 10
    · exact ⟨n, [], h1, h10, by rw [if_pos h10]⟩
    · have hf' : n / 10 < 10 ^ f := by
        have : 10 ^ (f + 1) = 10 * 10 ^ f := by ring
        omega
      obtain ⟨d, rest, hd1, hd2, he⟩ := ih (n / 10) (by omega) hf'
      exact ⟨d, rest ++ [digitChar (n % 10)], hd1, hd2, by rw [if_neg h10, he]; rfl⟩

theorem digitChar_ne_zero (d : Nat) (h1 : 1 ≤ d) (h2 : d < 10) : digitChar d ≠ digitChar 0 := by
  intro h
  have := congrArg digitVal h
  rw [digitVal_digitChar d h2, digitVal_digitChar 0 (by norm_num)] at this
  simp at this
  omega

/-- The first three characters of the unpadded decimal of a nanosecond
remainder are the three digits of its millisecond count exactly when the
remainder has nine digits. -/
theorem take_three_decimal_iff (r : Nat) (hr : r < 1000000000) :
    (decimal r).take 3 = fixedDigits 3 (r / 1000000) ↔ 100000000 ≤ r := by
  constructor
  · intro h
    by_contra hlt
    by_cases h100 : r < 100
    · have hl := decimal_length_le 2 r (by norm_num) (by omega)
      have := congrArg List.length h
      simp only [List.length_take, fixedDigits_length] at this
      omega
    · obtain ⟨d, rest, hd1, hd2, he⟩ :=
        decimalFuel_head (r + 1) r (by omega) (lt_ten_pow_succ r)
      have hz : fixedDigits 3 (r / 1000000)
          = digitChar 0 :: fixedDigits 2 (r / 1000000) := by
        have := fixedDigits_add 1 2 (r / 1000000)
        have e : r / 1000000 / 10 ^ 2 % 10 = 0 := by omega
        have e1 : fixedDigits 1 (r / 1000000 / 10 ^ 2) = [digitChar 0] := by
          simp only [fixedDigits, List.nil_append, e]
        rw [e1] at this
        exact this
      unfold decimal at h
      rw [he, hz] at h
      simp only [List.take_succ_cons, List.cons.injEq] at h
      exact digitChar_ne_zero d hd1 hd2 h.1
  · intro h
    rw [decimal_eq_fixedDigits 8 r (by omega) (by omega)]
    have := fixedDigits_add 3 6 r
    have e : (10 : Nat) ^ 6 = 1000000 := by norm_num
    rw [e] at this
    rw [this, List.take_left' (fixedDigits_length _ _)]

theorem date_string_fraction (P : Int → List Char) (t : Int) (str str_size : Nat) (mem : Mem)
    (hlo : INT64_MIN ≤ t) (hhi : t ≤ INT64_MAX)
    (hcap : 24 ≤ str_size) (hsize : str_size < 2 ^ 64)
    (hP : (P ((t.natAbs / 1000000000 : Nat) : Int)).length = 19) :
    (rcutils_time_point_value_as_date_string P (some t) (some str) str_size mem).2 (str + 19)
      = '.' ∧
    c_str (rcutils_time_point_value_as_date_string P (some t) (some str) str_size mem).2
        (str + 20) 4 = (decimal (t.natAbs % 1000000000)).take 3 := by
  have hsz : 5 ≤ size_t_sub str_size 19 := by
    rw [size_t_sub_eq str_size 19 (by omega) hsize]
    omega
  have hb := date_string_bytes P t str str_size mem hlo hhi (by omega) hP hsz
  have hlen : ((decimal (t.natAbs % 1000000000)).take 3).length ≤ 3 := by
    simp only [List.length_take]
    omega
  constructor
  · rw [hb 19 (by simp only [List.length_append, hP, List.length_singleton]; omega),
      List.getElem_append_right (by omega)]
    simp only [hP, Nat.sub_self, List.append_assoc, List.singleton_append, List.cons_append,
      List.getElem_cons_zero]
  · apply c_str_of_bytes
    · intro c hc
      exact isDigit_ne_NUL c (decimal_isDigit _ c (List.mem_of_mem_take hc))
    · omega
    · intro i hi
      have hi' : i < ((decimal (t.natAbs % 1000000000)).take 3).length + 1 := by
        simpa using hi
      have e : str + 20 + i = str + (20 + i) := by omega
      rw [e, hb (20 + i) (by
        simp only [List.length_append, hP, List.length_singleton]
        omega), List.getElem_append_right (by omega)]
      simp only [hP, List.append_assoc, List.singleton_append]
      have e2 : 20 + i - 19 = i + 1 := by omega
      simp only [e2, List.cons_append, List.getElem_cons_succ]

/-- C17. For every signed 64-bit timestamp `t` with nanosecond remainder
`r = |t| mod 1000000000`, every capacity from 24 up and every platform whose
calendar text has 19 characters, `rcutils_time_point_value_as_date_string`
leaves a `.` at offset 19, and the C string after it is the three-digit
zero-padded value of `r / 1000000` if and only if `r >= 100000000`. On the UTC
platform a remainder of 5000000 leaves `.500` and a remainder of 0 leaves `.0`.
The fraction is read from the unpadded decimal of the remainder. -/
theorem date_string_fraction_is_milliseconds_iff (P : Int → List Char) (t : Int)
    (str str_size : Nat) (mem : Mem)
    (hlo : INT64_MIN ≤ t) (hhi : t ≤ INT64_MAX)
    (hcap : 24 ≤ str_size) (hsize : str_size < 2 ^ 64)
    (hP : (P ((t.natAbs / 1000000000 : Nat) : Int)).length = 19) :
    (rcutils_time_point_value_as_date_string P (some t) (some str) str_size mem).2 (str + 19)
      = '.' ∧
    (c_str (rcutils_time_point_value_as_date_string P (some t) (some str) str_size mem).2
        (str + 20) 4 = fixedDigits 3 (t.natAbs % 1000000000 / 1000000)
      ↔ 100000000 ≤ t.natAbs % 1000000000) ∧
    c_str (rcutils_time_point_value_as_date_string utc_calendar_text
        (some 5000000) (some 0) 24 (fun _ => 'x')).2 19 5 = ".500".toList ∧
    c_str (rcutils_time_point_value_as_date_string utc_calendar_text
        (some 0) (some 0) 24 (fun _ => 'x')).2 19 5 = ".0".toList := by
  obtain ⟨h1, h2⟩ := date_string_fraction P t str str_size mem hlo hhi hcap hsize hP
  refine ⟨h1, ?_, by rfl, by rfl⟩
  rw [h2]
  exact take_three_decimal_iff _ (Nat.mod_lt _ (by norm_num))

/-- Witness of C17 on the UTC platform: a remainder of 123456789 nanoseconds
leaves the fraction `123`, its millisecond count. -/
theorem date_string_fraction_is_milliseconds_iff_witness :
    (INT64_MIN ≤ 1700000000123456789 ∧ (1700000000123456789 : Int) ≤ INT64_MAX ∧
      24 ≤ 24 ∧ 24 < 2 ^ 64 ∧
      (utc_calendar_text (((1700000000123456789 : Int).natAbs / 1000000000 : Nat) : Int)).length
        = 19) ∧
    c_str (rcutils_time_point_value_as_date_string utc_calendar_text
        (some 1700000000123456789) (some 0) 24 (fun _ => 'x')).2 (0 + 20) 4
      = fixedDigits 3 ((1700000000123456789 : Int).natAbs % 1000000000 / 1000000) ∧
    fixedDigits 3 ((1700000000123456789 : Int).natAbs % 1000000000 / 1000000)
      = "123".toList :=
  ⟨⟨by decide, by decide, by decide, by decide, utc_calendar_text_length _⟩,
    (date_string_fraction_is_milliseconds_iff utc_calendar_text 1700000000123456789 0 24
      (fun _ => 'x') (by decide) (by decide) (by decide) (by decide)
      (utc_calendar_text_length _)).2.1.2 (by decide), by rfl⟩

/-! ## The sign in the date formatter -/

/-- C18. For every timestamp `t` with `-INT64_MAX <= t <= INT64_MAX`, every
buffer, every capacity and every fixed platform,
`rcutils_time_point_value_as_date_string` gives for `-t` the same return code and
the same memory as for `t`: the sign of the timestamp is ignored, and no marker
distinguishes a negative timestamp. -/
theorem date_string_ignores_sign (P : Int → List Char) (t : Int) (str : Option Nat)
    (str_size : Nat) (mem : Mem) (hlo : -INT64_MAX ≤ t) (hhi : t ≤ INT64_MAX) :
    rcutils_time_point_value_as_date_string P (some (-t)) str str_size mem
      = rcutils_time_point_value_as_date_string P (some t) str str_size mem := by
  have h1 : INT64_MIN ≤ t := by unfold INT64_MIN; unfold INT64_MAX at hlo; omega
  have h2 : INT64_MIN ≤ -t := by unfold INT64_MIN; unfold INT64_MAX at hhi; omega
  have h3 : -t ≤ INT64_MAX := by unfold INT64_MAX at hlo ⊢; omega
  simp only [rcutils_time_point_value_as_date_string, abs_time_point_eq t h1 hhi,
    abs_time_point_eq (-t) h2 h3, Int.natAbs_neg]

/-- Witness of C18 on the UTC platform: -1500000000 and 1500000000 nanoseconds
both leave `1970-01-01 00:00:01.500`. -/
theorem date_string_ignores_sign_witness :
    (-INT64_MAX ≤ 1500000000 ∧ (1500000000 : Int) ≤ INT64_MAX) ∧
    rcutils_time_point_value_as_date_string utc_calendar_text (some (-1500000000)) (some 0) 24
        (fun _ => 'x')
      = rcutils_time_point_value_as_date_string utc_calendar_text (some 1500000000) (some 0) 24
        (fun _ => 'x') ∧
    c_str (rcutils_time_point_value_as_date_string utc_calendar_text (some (-1500000000))
        (some 0) 24 (fun _ => 'x')).2 0 24 = "1970-01-01 00:00:01.500".toList :=
  ⟨⟨by decide, by decide⟩,
    date_string_ignores_sign utc_calendar_text 1500000000 (some 0) 24 (fun _ => 'x')
      (by decide) (by decide), by rfl⟩

end RcutilsTime
